import Mathlib

/-!
Verification of the poker hand-ranking engine in `src/poker.py`.

Cards are two-character Python strings such as `"TD"`; we embed them as a
structure holding the rank character and the suit character.  Python
exceptions (`KeyError` from the rank-value dict, `ValueError` from `max()` on
an empty sequence, `IndexError` from list indexing, `TypeError` from adding
`None` to an int, `StopIteration` from `next()` on an exhausted iterator) are
embedded as an `Except` error type.  Python `set` iteration order is
unspecified; wherever `poker.py` iterates over a set (`stem`, the joker
replacement decks) the embedding fixes a canonical enumeration order
(first-occurrence order for `stem`, comprehension order for the decks) and,
where a claim depends on that order, takes the enumeration order as an
explicit parameter.
-/

/-- A playing-card token: `rank` is the first character of the two-character
Python string (one of 2-9, T, J, Q, K, A, or the joker marker), `suit` the
second (C, S, H, D, or a joker color B/R). -/
structure Card where
  rank : Char
  suit : Char
deriving DecidableEq, Repr

/-- The Python exceptions the poker module can raise, as embedded error
values. -/
inductive PyErr where
  | keyError
  | valueError
  | indexError
  | typeError
  | stopIteration
deriving DecidableEq, Repr

/-- A component of the tie-break part of a `hand_rank` result.  Python mixes
scalars (possibly `None`, from a failed `kind` lookup) with rank lists and
tuples; `scalar none` embeds Python `None`. -/
inductive Rest where
  | scalar : Option Nat → Rest
  | seq : List Nat → Rest
deriving DecidableEq, Repr

/-- A `hand_rank` result: the category number together with the remaining
tuple components. -/
abbrev RankKey := Nat × List Rest

/-- Python `max(list)`: `none` embeds the `ValueError` raised on an empty
sequence. -/
def maxList (l : List Nat) : Option Nat :=
  match l with
  | [] => none
  | x :: xs => some (xs.foldl Nat.max x)

/-- Descending insertion of one element, used to embed Python
`sorted(_, reverse=True)` on integer lists. -/
def insertDesc (x : Nat) : List Nat → List Nat
  | [] => [x]
  | y :: ys => if x ≥ y then x :: y :: ys else y :: insertDesc x ys

/-- Python `sorted(l, reverse=True)` for integer lists. -/
def sortDesc (l : List Nat) : List Nat :=
  l.foldr insertDesc []

/-- Helper for `runLens`: counts the current run of elements equal to `x`. -/
def runLensAux {α : Type} [DecidableEq α] (x : α) (n : Nat) : List α → List Nat
  | [] => [n]
  | y :: ys => if y = x then runLensAux x (n + 1) ys else n :: runLensAux y 1 ys

/-- The lengths of the maximal runs of consecutive equal elements, as in
`[len(list(g)) for k, g in itertools.groupby(l)]`. -/
def runLens {α : Type} [DecidableEq α] : List α → List Nat
  | [] => []
  | x :: xs => runLensAux x 1 xs

/-- Helper for `runs`: the maximal runs of consecutive equal elements with
their lengths, as produced by `itertools.groupby`. -/
def runsAux {α : Type} [DecidableEq α] (x : α) (n : Nat) : List α → List (α × Nat)
  | [] => [(x, n)]
  | y :: ys => if y = x then runsAux x (n + 1) ys else (x, n) :: runsAux y 1 ys

/-- `itertools.groupby` keys paired with group lengths. -/
def runs {α : Type} [DecidableEq α] : List α → List (α × Nat)
  | [] => []
  | x :: xs => runsAux x 1 xs

/-- Python dict insertion `d[k] = v`: replaces the value at an existing key in
place, otherwise appends the binding. -/
def dictInsert (d : List (Nat × Nat)) (k v : Nat) : List (Nat × Nat) :=
  if d.any (fun p => p.1 = k) then
    d.map (fun p => if p.1 = k then (k, v) else p)
  else d ++ [(k, v)]

/-- The dict comprehension `{k: len(list(g)) for k, g in groupby(ranks)}`
used by `kind` and `two_pair`. -/
def groupCounts (ranks : List Nat) : List (Nat × Nat) :=
  (runs ranks).foldl (fun d p => dictInsert d p.1 p.2) []

/-- The literal dict `card_values_map` of `card_ranks`, as an association
list in source order. -/
def card_values_map : List (Char × Nat) :=
  [('2', 2), ('3', 3), ('4', 4), ('5', 5), ('6', 6), ('7', 7), ('8', 8),
   ('9', 9), ('T', 10), ('J', 11), ('Q', 12), ('K', 13), ('A', 14)]

/-- The lookup `card_values_map[card[0]]`; `none` embeds the `KeyError`
raised on any character outside the table. -/
def cardValue (c : Char) : Option Nat :=
  (card_values_map.find? (fun p => p.1 = c)).map (fun p => p.2)

/-- `card_ranks(hand)`: the numeric rank of each card, sorted descending;
raises `KeyError` on an invalid rank character. -/
def card_ranks (hand : List Card) : Except PyErr (List Nat) :=
  match hand.mapM (fun c => cardValue c.rank) with
  | some vs => .ok (sortDesc vs)
  | none => .error .keyError

/-- First-occurrence deduplication helper carrying the set of elements
already seen. -/
def dedupFirstAux {α : Type} [DecidableEq α] (seen : List α) : List α → List α
  | [] => []
  | x :: xs =>
    if x ∈ seen then dedupFirstAux seen xs
    else x :: dedupFirstAux (x :: seen) xs

/-- Deduplication keeping the first occurrence of each element: the canonical
enumeration of a Python `set` built from a list. -/
def dedupFirst {α : Type} [DecidableEq α] (l : List α) : List α :=
  dedupFirstAux [] l

/-- `flush(hand)`: `len(set(card[1] for card in hand)) == 1`. -/
def flush (hand : List Card) : Bool :=
  (dedupFirst (hand.map (fun c => c.suit))).length = 1

/-- The consecutive differences `[s - f for f, s in itertools.pairwise(ranks)]`
(negative for descending input, hence integers). -/
def pairDiffs (ranks : List Nat) : List Int :=
  match ranks with
  | [] => []
  | _ :: t => List.zipWith (fun f s => (s : Int) - (f : Int)) ranks t

/-- `straight(ranks)`: the longest run of equal consecutive differences has
length exactly 4.  `max([])` on a list of fewer than two ranks raises
`ValueError`. -/
def straight (ranks : List Nat) : Except PyErr Bool :=
  match maxList (runLens (pairDiffs ranks)) with
  | some m => .ok (m = 4)
  | none => .error .valueError

/-- `kind(n, ranks)`: the largest rank occurring exactly `n` times in the
(groupby-counted) ranks, else `None`. -/
def kind (n : Nat) (ranks : List Nat) : Option Nat :=
  match sortDesc (((groupCounts ranks).filter (fun p => p.2 = n)).map (fun p => p.1)) with
  | [] => none
  | k :: _ => some k

/-- `two_pair(ranks)`: the two rank values occurring exactly twice, highest
first, provided there are exactly two of them. -/
def two_pair (ranks : List Nat) : Option (Nat × Nat) :=
  match sortDesc (((groupCounts ranks).filter (fun p => p.2 = 2)).map (fun p => p.1)) with
  | [a, b] => some (a, b)
  | _ => none

/-- `hand_rank(hand)`: the category number and tie-break components, following
the `if`/`elif` chain of the source literally (Python evaluates
`straight(ranks)` before any branch that needs it, so a `ValueError` there
propagates first; truthiness of `kind`/`two_pair` results is `isSome` since
all rank values are at least 2). -/
def hand_rank (hand : List Card) : Except PyErr RankKey := do
  let ranks ← card_ranks hand
  let st ← straight ranks
  if st ∧ flush hand then
    match maxList ranks with
    | some m => return (8, [.scalar (some m)])
    | none => .error .valueError
  else if (kind 4 ranks).isSome then
    return (7, [.scalar (kind 4 ranks), .scalar (kind 1 ranks)])
  else if (kind 3 ranks).isSome ∧ (kind 2 ranks).isSome then
    return (6, [.scalar (kind 3 ranks), .scalar (kind 2 ranks)])
  else if flush hand then
    return (5, [.seq ranks])
  else if st then
    match maxList ranks with
    | some m => return (4, [.scalar (some m)])
    | none => .error .valueError
  else if (kind 3 ranks).isSome then
    return (3, [.scalar (kind 3 ranks), .seq ranks])
  else
    match two_pair ranks with
    | some (a, b) => return (2, [.seq [a, b], .seq ranks])
    | none =>
      if (kind 2 ranks).isSome then
        return (1, [.scalar (kind 2 ranks), .seq ranks])
      else
        return (0, [.seq ranks])

/-- The body of `hand_rank` with the ranks already computed and the flush
test abstracted into a Boolean: `hand_rank hand` equals
`handRankCore (flush hand) ranks` whenever `card_ranks hand = ok ranks`
(see `hand_rank_eq_core`). -/
def handRankCore (fl : Bool) (ranks : List Nat) : Except PyErr RankKey := do
  let st ← straight ranks
  if st ∧ fl then
    match maxList ranks with
    | some m => return (8, [.scalar (some m)])
    | none => .error .valueError
  else if (kind 4 ranks).isSome then
    return (7, [.scalar (kind 4 ranks), .scalar (kind 1 ranks)])
  else if (kind 3 ranks).isSome ∧ (kind 2 ranks).isSome then
    return (6, [.scalar (kind 3 ranks), .scalar (kind 2 ranks)])
  else if fl then
    return (5, [.seq ranks])
  else if st then
    match maxList ranks with
    | some m => return (4, [.scalar (some m)])
    | none => .error .valueError
  else if (kind 3 ranks).isSome then
    return (3, [.scalar (kind 3 ranks), .seq ranks])
  else
    match two_pair ranks with
    | some (a, b) => return (2, [.seq [a, b], .seq ranks])
    | none =>
      if (kind 2 ranks).isSome then
        return (1, [.scalar (kind 2 ranks), .seq ranks])
      else
        return (0, [.seq ranks])

/-- The flattening loop of `best_hand`: tuple/list components are spliced in,
scalars (possibly `None`) appended. -/
def flattenRest (rest : List Rest) : List (Option Nat) :=
  match rest with
  | [] => []
  | .scalar o :: t => o :: flattenRest t
  | .seq l :: t => l.map some ++ flattenRest t

/-- Association-list deduplication keeping the first occurrence of each key:
the Python dict `d[hand5] = hand_rank(hand5)` keyed by candidate tuples
(re-assignment keeps the original position, and `hand_rank` is deterministic
so the retained value is unchanged). -/
def dedupKeysAux {α β : Type} [DecidableEq α] (seen : List α) :
    List (α × β) → List (α × β)
  | [] => []
  | (k, v) :: t =>
    if k ∈ seen then dedupKeysAux seen t
    else (k, v) :: dedupKeysAux (k :: seen) t

/-- Deduplication of candidate/value pairs by key, keeping first
occurrences. -/
def dedupKeys {α β : Type} [DecidableEq α] (l : List (α × β)) : List (α × β) :=
  dedupKeysAux [] l

/-- One pass of `d_best_ranks[hand_candidate] += rank_specific[criterion]`:
adds the `crit`-th flattened tie-break value of each candidate to its running
sum.  Indexing past the end raises `IndexError`; adding Python `None` raises
`TypeError`. -/
def addCriterion (pairs : List (List Card × List (Option Nat))) (sums : List Nat)
    (crit : Nat) : Except PyErr (List Nat) :=
  match pairs, sums with
  | [], _ => .ok []
  | _, [] => .ok []
  | (_, l) :: pt, s :: st => do
    let v ← match l.get? crit with
      | none => .error PyErr.indexError
      | some none => .error PyErr.typeError
      | some (some v) => .ok (s + v)
    let rest ← addCriterion pt st crit
    return v :: rest

/-- The `max_value_unique` scan of `best_hand`: folds over the candidates in
dict order starting from `[None, 0, True]`, recording the current maximum sum,
its candidate, and whether it is unique. -/
def scanMax (keys : List (List Card)) (sums : List Nat) :
    Option (List Card) × Nat × Bool :=
  (List.zip keys sums).foldl
    (fun acc kv =>
      if kv.2 > acc.2.1 then (some kv.1, kv.2, true)
      else if kv.2 = acc.2.1 then (acc.1, acc.2.1, false)
      else acc)
    (none, 0, true)

/-- The per-criterion elimination loop of `best_hand`: accumulate the next
tie-break value into every candidate's sum, return the candidate holding a
unique maximum, and after the last criterion fall back to the first candidate
in dict order. -/
def criteriaLoop (pairs : List (List Card × List (Option Nat)))
    (sums : List Nat) (crit : Nat) : Nat → Except PyErr (List Card)
  | 0 =>
    match pairs with
    | (k, _) :: _ => .ok k
    | [] => .error .stopIteration
  | remaining + 1 => do
    let sums2 ← addCriterion pairs sums crit
    match scanMax (pairs.map (fun p => p.1)) sums2 with
    | (best?, _, unique) =>
      if unique then
        match best? with
        | some k => .ok k
        | none => .error .typeError
      else
        criteriaLoop pairs sums2 (crit + 1) remaining

/-- The tail of the selection procedure, from the flattened max-category
dictionary on: read off `rests_dim` from the first candidate and run the
per-criterion elimination loop.  `next(iter(...))` on an empty dict raises
`StopIteration` (unreachable for nonempty dictionaries, whose rank keys
always carry at least one tie-break component). -/
def selectStage (d2 : List (List Card × List (Option Nat))) :
    Except PyErr (List Card) :=
  match d2 with
  | [] => .error .stopIteration
  | (k0, l0) :: t =>
    match l0.length with
    | 0 => .error .stopIteration
    | d + 1 => criteriaLoop ((k0, l0) :: t) (((k0, l0) :: t).map (fun _ => 0)) 0 (d + 1)

/-- The selection procedure shared by `best_hand` and `best_wild_hand`, run
on the deduplicated candidate dictionary: keep the candidates of the maximal
category, flatten their tie-break components, and run the cumulative-sum
elimination loop.  `max` of an empty dict raises `ValueError`. -/
def bestFromCandidates (cands : List (List Card × RankKey)) :
    Except PyErr (List Card) :=
  match maxList (cands.map (fun p => p.2.1)) with
  | none => .error .valueError
  | some maxRank =>
    selectStage ((cands.filter (fun p => p.2.1 = maxRank)).map
      (fun p => (p.1, flattenRest p.2.2)))

/-- `itertools.combinations(l, n)` as index-ordered sublists: each tuple keeps
the input order, and tuples are emitted in lexicographic index order. -/
def combos {α : Type} : Nat → List α → List (List α)
  | 0, _ => [[]]
  | _ + 1, [] => []
  | n + 1, x :: xs => (combos n xs).map (fun c => x :: c) ++ combos (n + 1) xs

/-- Tail-recursive worker for `rankAll`. -/
def rankAllAux (acc : List (List Card × RankKey)) :
    List (List Card) → Except PyErr (List (List Card × RankKey))
  | [] => .ok acc.reverse
  | h5 :: t =>
    match hand_rank h5 with
    | .error e => .error e
    | .ok k => rankAllAux ((h5, k) :: acc) t

/-- Builds the candidate dictionary `d[hand5] = hand_rank(hand5)` over a list
of 5-card tuples, propagating the first exception in iteration order. -/
def rankAll (hands : List (List Card)) :
    Except PyErr (List (List Card × RankKey)) :=
  rankAllAux [] hands

/-- `best_hand(hand)`: ranks every 5-card combination of the 7-card hand and
runs the cumulative-sum selection. -/
def best_hand (hand : List Card) : Except PyErr (List Card) := do
  let pairs ← rankAll (combos 5 hand)
  bestFromCandidates (dedupKeys pairs)

/-- The black joker token `?B`. -/
def jokerB : Card := ⟨'?', 'B'⟩

/-- The red joker token `?R`. -/
def jokerR : Card := ⟨'?', 'R'⟩

/-- The rank characters of `best_wild_hand`, in its source order. -/
def rankChars : List Char :=
  ['A', '2', '3', '4', '5', '6', '7', '8', '9', 'T', 'J', 'Q', 'K']

/-- `black_deck`: all 26 clubs/spades cards, in comprehension order (the
Python value is a set; this is the canonical enumeration). -/
def blackDeck : List Card :=
  rankChars.foldr (fun r acc => ⟨r, 'C'⟩ :: ⟨r, 'S'⟩ :: acc) []

/-- `red_deck`: all 26 hearts/diamonds cards, in comprehension order. -/
def redDeck : List Card :=
  rankChars.foldr (fun r acc => ⟨r, 'H'⟩ :: ⟨r, 'D'⟩ :: acc) []

/-- `stem = set(hand) - {'?B', '?R'}` under the canonical first-occurrence
enumeration order. -/
def canonStem (hand : List Card) : List Card :=
  dedupFirst (hand.filter (fun c => c ≠ jokerB ∧ c ≠ jokerR))

/-- `deck - stem` under the canonical deck enumeration order. -/
def complementDeck (deck stem : List Card) : List Card :=
  deck.filter (fun c => c ∉ stem)

/-- The joker-expansion loop of `best_wild_hand`, parameterized by the
enumeration order `stemList` of the stem set: for each joker present in the
original hand, extend every option with every card of the color-matching deck
not already in the stem (`itertools.product` order: options outer, deck
inner). -/
def wildOptionsWith (stemList : List Card) (hand : List Card) :
    List (List Card) :=
  let opts0 := [stemList]
  let opts1 :=
    if jokerB ∈ hand then
      opts0.foldr (fun a acc =>
        (complementDeck blackDeck stemList).map (fun b => a ++ [b]) ++ acc) []
    else opts0
  if jokerR ∈ hand then
    opts1.foldr (fun a acc =>
      (complementDeck redDeck stemList).map (fun b => a ++ [b]) ++ acc) []
  else opts1

/-- The joker expansion under the canonical stem enumeration order. -/
def wildOptions (hand : List Card) : List (List Card) :=
  wildOptionsWith (canonStem hand) hand

/-- The nested loop `for option in options: for hand5 in combinations(option, 5)`
collecting every 5-card tuple of every option, in order. -/
def optionCombos (options : List (List Card)) : List (List Card) :=
  match options with
  | [] => []
  | o :: os => combos 5 o ++ optionCombos os

/-- `best_wild_hand` with the stem-set enumeration order as an explicit
parameter (Python iterates `stem` in unspecified set order). -/
def best_wild_hand_with (stemList : List Card) (hand : List Card) :
    Except PyErr (List Card) := do
  let pairs ← rankAll (optionCombos (wildOptionsWith stemList hand))
  bestFromCandidates (dedupKeys pairs)

/-- `best_wild_hand(hand)` under the canonical stem enumeration order. -/
def best_wild_hand (hand : List Card) : Except PyErr (List Card) :=
  best_wild_hand_with (canonStem hand) hand

/-- A computation-friendly form of `bestFromCandidates ∘ dedupKeys`: the
category maximum is taken over the raw candidate list and the dict
deduplication is deferred until after the category filter.  Proved equal to
the direct embedding (for candidate lists whose values are determined by
their keys, as `hand_rank` guarantees) in `bestFromCandidates_dedup_eq`. -/
def bestFromCandidatesFast (cands : List (List Card × RankKey)) :
    Except PyErr (List Card) :=
  match maxList (cands.map (fun p => p.2.1)) with
  | none => .error .valueError
  | some maxRank =>
    selectStage ((dedupKeys (cands.filter (fun p => p.2.1 = maxRank))).map
      (fun p => (p.1, flattenRest p.2.2)))

/-- `best_wild_hand_with`, computed through `bestFromCandidatesFast`. -/
def best_wild_hand_fastPath (stemList : List Card) (hand : List Card) :
    Except PyErr (List Card) :=
  match rankAll (optionCombos (wildOptionsWith stemList hand)) with
  | .error e => .error e
  | .ok pairs => bestFromCandidatesFast pairs

/-- The 7-card wildcard test input `["TD","TC","5H","5C","7C","?R","?B"]` of
`test_best_wild_hand`. -/
def w10 : List Card :=
  [⟨'T', 'D'⟩, ⟨'T', 'C'⟩, ⟨'5', 'H'⟩, ⟨'5', 'C'⟩, ⟨'7', 'C'⟩, ⟨'?', 'R'⟩, ⟨'?', 'B'⟩]

/-- The group of joker-expansion options of `w10` for a fixed black-joker
replacement `b`: one 7-card option per red-joker replacement. -/
def w10group (b : Card) : List (List Card) :=
  (complementDeck redDeck (canonStem w10)).map (fun r =>
    (canonStem w10 ++ [b]) ++ [r])

/-- The 552 joker-expansion options of `w10`, arranged as 23 groups of 24
(one group per black-joker replacement) so that every evaluation recursion
stays shallow; equals the flat option list (see `w10_options_eq`). -/
def w10groups : List (List (List Card)) :=
  (complementDeck blackDeck (canonStem w10)).map w10group

/-- The six four-of-a-kind candidates of the `w10` expansion (the maximal
category is 7), in dictionary enumeration order. -/
def w10cands : List (List Card × RankKey) :=
  [([⟨'T', 'D'⟩, ⟨'5', 'H'⟩, ⟨'5', 'C'⟩, ⟨'5', 'S'⟩, ⟨'5', 'D'⟩],
      (7, [.scalar (some 5), .scalar (some 10)])),
   ([⟨'T', 'C'⟩, ⟨'5', 'H'⟩, ⟨'5', 'C'⟩, ⟨'5', 'S'⟩, ⟨'5', 'D'⟩],
      (7, [.scalar (some 5), .scalar (some 10)])),
   ([⟨'5', 'H'⟩, ⟨'5', 'C'⟩, ⟨'7', 'C'⟩, ⟨'5', 'S'⟩, ⟨'5', 'D'⟩],
      (7, [.scalar (some 5), .scalar (some 7)])),
   ([⟨'T', 'D'⟩, ⟨'T', 'C'⟩, ⟨'5', 'H'⟩, ⟨'T', 'S'⟩, ⟨'T', 'H'⟩],
      (7, [.scalar (some 10), .scalar (some 5)])),
   ([⟨'T', 'D'⟩, ⟨'T', 'C'⟩, ⟨'5', 'C'⟩, ⟨'T', 'S'⟩, ⟨'T', 'H'⟩],
      (7, [.scalar (some 10), .scalar (some 5)])),
   ([⟨'T', 'D'⟩, ⟨'T', 'C'⟩, ⟨'7', 'C'⟩, ⟨'T', 'S'⟩, ⟨'T', 'H'⟩],
      (7, [.scalar (some 10), .scalar (some 7)]))]

/-- Whether consecutive elements descend by exactly one. -/
def unitStepsDesc : List Nat → Bool
  | [] => true
  | [_] => true
  | a :: b :: t => (a = b + 1) && unitStepsDesc (b :: t)

/-- Modelled from the spec: a straight holds exactly when the 5 ranks are
distinct and, sorted descending, have exactly 4 unit gaps, i.e. they form 5
consecutive integers ("ranks sorted descending form 5 consecutive
integers"). -/
def specStraight (ranks : List Nat) : Bool :=
  (ranks.length = 5) && unitStepsDesc (sortDesc ranks)

/-- Strict lexicographic order on equal-purpose tie-break value lists,
left-most element most significant. -/
def lexLtNat : List Nat → List Nat → Bool
  | [], [] => false
  | [], _ :: _ => true
  | _ :: _, [] => false
  | x :: xs, y :: ys => x < y || (x = y && lexLtNat xs ys)

/-- Modelled from the spec: the reference order on `(category, tie-break
values)` pairs — "category always dominates; within equal category,
tie-break sequence is compared lexicographically element-by-element,
left-most element most significant". -/
def specKeyLt (a b : Nat × List Nat) : Bool :=
  a.1 < b.1 || (a.1 = b.1 && lexLtNat a.2 b.2)

/-- A top-level Python `def` statement together with the number of
statements in its body. -/
structure PyDef where
  name : String
  bodyStmtCount : Nat
deriving DecidableEq, Repr

/-- The top-level function definitions of `src/poker.py` with their body
statement counts (docstrings are expression statements and count; comments
do not).  `kicker_ranks` (lines 95-97) has an empty body: `def
kicker_ranks(ranked_hand):` is followed by blank lines and then the
column-0 `def best_hand`. -/
def pokerModuleDefs : List PyDef :=
  [⟨"hand_rank", 3⟩, ⟨"card_ranks", 5⟩, ⟨"flush", 2⟩, ⟨"straight", 3⟩,
   ⟨"kind", 4⟩, ⟨"two_pair", 4⟩, ⟨"kicker_ranks", 0⟩, ⟨"best_hand", 12⟩,
   ⟨"best_wild_hand", 19⟩, ⟨"test_best_hand", 5⟩, ⟨"test_best_wild_hand", 5⟩]

/-- Python's grammar requires every `def` body to be a nonempty indented
statement block; a module with an empty function body fails to parse. -/
def pythonSyntaxValid (m : List PyDef) : Bool :=
  m.all (fun d => 0 < d.bodyStmtCount)

/-- The outcome of calling a function through an imported Python module:
parsing happens before any evaluation, so a syntax error pre-empts every
call. -/
inductive ModuleOutcome (α : Type) where
  | result : α → ModuleOutcome α
  | syntaxErrorRaised : ModuleOutcome α
deriving DecidableEq

/-- Calling `f` through a module: the module is parsed first; if it is not
syntactically valid Python the import raises `SyntaxError` (here an
`IndentationError`) and no call result is ever produced. -/
def callThroughModule {α β : Type} (m : List PyDef) (f : α → β) (x : α) :
    ModuleOutcome β :=
  if pythonSyntaxValid m then .result (f x) else .syntaxErrorRaised

/-- The number of joker tokens `best_wild_hand` expands in a hand (each of
`?B`, `?R` is handled once, by the `for joker, deck in ...` loop). -/
def jokerCount (hand : List Card) : Nat :=
  (if jokerB ∈ hand then 1 else 0) + (if jokerR ∈ hand then 1 else 0)

/-- The 7-card hand `["4C","5D","6H","7S","8C","9D","9H"]`: its three
straights are the 8-high `{4,5,6,7,8}` and two 9-high ones tied on top
rank, which trips the fall-through branch of the selection loop. -/
def c1hand : List Card :=
  [⟨'4', 'C'⟩, ⟨'5', 'D'⟩, ⟨'6', 'H'⟩, ⟨'7', 'S'⟩, ⟨'8', 'C'⟩, ⟨'9', 'D'⟩, ⟨'9', 'H'⟩]

/-- A rotation of `c1hand`: a legitimate enumeration order of the Python
set `stem = set(hand)` for that hand. -/
def rotStem : List Card :=
  [⟨'5', 'D'⟩, ⟨'6', 'H'⟩, ⟨'7', 'S'⟩, ⟨'8', 'C'⟩, ⟨'9', 'D'⟩, ⟨'9', 'H'⟩, ⟨'4', 'C'⟩]

/-- A 7-card input in which the concrete card `2C` appears twice. -/
def dup7 : List Card :=
  [⟨'2', 'C'⟩, ⟨'2', 'C'⟩, ⟨'3', 'D'⟩, ⟨'4', 'H'⟩, ⟨'5', 'S'⟩, ⟨'6', 'C'⟩, ⟨'7', 'D'⟩]

/-- A hand whose five concrete cards are all red, so the black joker has all
26 clubs/spades available. -/
def c9hand : List Card :=
  [⟨'2', 'H'⟩, ⟨'3', 'H'⟩, ⟨'4', 'H'⟩, ⟨'5', 'H'⟩, ⟨'6', 'H'⟩, ⟨'?', 'B'⟩, ⟨'?', 'R'⟩]

/-- Maximum of two optional category values (`none` = no candidates seen). -/
def omax : Option Nat → Option Nat → Option Nat
  | none, b => b
  | some x, none => some x
  | some x, some y => some (Nat.max x y)

/-- A summary of a candidate dictionary: its maximal category together with
the candidates achieving it, in enumeration order. -/
abbrev Summ := Option Nat × List (List Card × RankKey)

/-- Merges two candidate summaries: the higher category wins; equal
categories concatenate their candidate lists in order. -/
def mergeSumm : Summ → Summ → Summ
  | (none, _), p => p
  | (some m1, c1), (none, _) => (some m1, c1)
  | (some m1, c1), (some m2, c2) =>
    if m1 = m2 then (some m1, c1 ++ c2)
    else if m2 < m1 then (some m1, c1)
    else (some m2, c2)

/-- The summary of a ranked candidate list: the maximal category and the
candidates attaining it. -/
def summOf (P : List (List Card × RankKey)) : Summ :=
  match maxList (P.map (fun p => p.2.1)) with
  | none => (none, [])
  | some m => (some m, P.filter (fun p => p.2.1 = m))

/-- Single-pass summary of a list of 5-card tuples: ranks each tuple and
keeps the running maximal category with its candidates, propagating the
first `hand_rank` exception in order. -/
def summList : List (List Card) → Except PyErr Summ
  | [] => .ok (none, [])
  | h5 :: t =>
    match hand_rank h5 with
    | .error e => .error e
    | .ok k =>
      match summList t with
      | .error e => .error e
      | .ok s => .ok (mergeSumm (some k.1, [(h5, k)]) s)

/-- Summary of all 5-card combinations of each option in a list of
options. -/
def summOpts : List (List Card) → Except PyErr Summ
  | [] => .ok (none, [])
  | o :: os =>
    match summList (combos 5 o) with
    | .error e => .error e
    | .ok s1 =>
      match summOpts os with
      | .error e => .error e
      | .ok s2 => .ok (mergeSumm s1 s2)

/-- Summary over groups of options (used to keep every recursion shallow
when evaluating the 23×24 joker expansion). -/
def summGroups : List (List (List Card)) → Except PyErr Summ
  | [] => .ok (none, [])
  | g :: gs =>
    match summOpts g with
    | .error e => .error e
    | .ok s1 =>
      match summGroups gs with
      | .error e => .error e
      | .ok s2 => .ok (mergeSumm s1 s2)

/-- Concatenation of a list of lists. -/
def concatAll {α : Type} : List (List α) → List α
  | [] => []
  | x :: t => x ++ concatAll t

/-! ### Lemmas about `maxList` -/

theorem natMax_assoc (x y z : Nat) :
    Nat.max (Nat.max x y) z = Nat.max x (Nat.max y z) := Nat.max_assoc x y z

theorem natMax_choice (a b : Nat) : Nat.max a b = a ∨ Nat.max a b = b :=
  max_choice a b

theorem foldl_max_shift (t : List Nat) : ∀ x y,
    t.foldl Nat.max (Nat.max x y) = Nat.max x (t.foldl Nat.max y) := by
  induction t with
  | nil => intro x y; rfl
  | cons z t ih =>
    intro x y
    show t.foldl Nat.max (Nat.max (Nat.max x y) z) = Nat.max x (t.foldl Nat.max (Nat.max y z))
    rw [natMax_assoc x y z]
    exact ih x (Nat.max y z)

theorem maxList_cons (x : Nat) (l : List Nat) :
    maxList (x :: l) = some (l.foldl Nat.max x) := rfl

theorem le_foldl_max_init (l : List Nat) : ∀ a, a ≤ l.foldl Nat.max a := by
  induction l with
  | nil => intro a; exact Nat.le_refl a
  | cons x t ih =>
    intro a
    exact Nat.le_trans (Nat.le_max_left a x) (ih (Nat.max a x))

theorem le_foldl_max_of_mem (l : List Nat) : ∀ a x, x ∈ l → x ≤ l.foldl Nat.max a := by
  induction l with
  | nil => intro a x hx; cases hx
  | cons y t ih =>
    intro a x hx
    rcases List.mem_cons.mp hx with h | h
    · subst h
      exact Nat.le_trans (Nat.le_max_right a x) (le_foldl_max_init t (Nat.max a x))
    · exact ih (Nat.max a y) x h

theorem foldl_max_mem (l : List Nat) : ∀ a, l.foldl Nat.max a = a ∨ l.foldl Nat.max a ∈ l := by
  induction l with
  | nil => intro a; exact Or.inl rfl
  | cons x t ih =>
    intro a
    rcases ih (Nat.max a x) with h | h
    · rcases natMax_choice a x with hm | hm
      · exact Or.inl (by rw [List.foldl_cons, h, hm])
      · refine Or.inr (List.mem_cons.mpr (Or.inl ?_))
        rw [List.foldl_cons, h, hm]
    · exact Or.inr (List.mem_cons.mpr (Or.inr h))

theorem maxList_mem {l : List Nat} {m : Nat} (h : maxList l = some m) : m ∈ l := by
  cases l with
  | nil => cases h
  | cons x t =>
    cases h
    rcases foldl_max_mem t x with h | h
    · rw [h]; exact List.mem_cons_self x t
    · exact List.mem_cons.mpr (Or.inr h)

theorem maxList_le {l : List Nat} {m x : Nat} (h : maxList l = some m) (hx : x ∈ l) :
    x ≤ m := by
  cases l with
  | nil => cases h
  | cons y t =>
    cases h
    rcases List.mem_cons.mp hx with h | h
    · subst h; exact le_foldl_max_init t x
    · exact le_foldl_max_of_mem t y x h

theorem maxList_eq_none_iff {l : List Nat} : maxList l = none ↔ l = [] := by
  cases l with
  | nil => exact ⟨fun _ => rfl, fun _ => rfl⟩
  | cons x t => exact ⟨(fun h => nomatch h), (fun h => nomatch h)⟩

theorem maxList_congr {l₁ l₂ : List Nat} (h : ∀ x, x ∈ l₁ ↔ x ∈ l₂) :
    maxList l₁ = maxList l₂ := by
  cases hm₁ : maxList l₁ with
  | none =>
    cases hm₂ : maxList l₂ with
    | none => rfl
    | some m₂ =>
      have := (h m₂).mpr (maxList_mem hm₂)
      rw [maxList_eq_none_iff.mp hm₁] at this
      cases this
  | some m₁ =>
    cases hm₂ : maxList l₂ with
    | none =>
      have := (h m₁).mp (maxList_mem hm₁)
      rw [maxList_eq_none_iff.mp hm₂] at this
      cases this
    | some m₂ =>
      have h₁ : m₁ ≤ m₂ := maxList_le hm₂ ((h m₁).mp (maxList_mem hm₁))
      have h₂ : m₂ ≤ m₁ := maxList_le hm₁ ((h m₂).mpr (maxList_mem hm₂))
      rw [Nat.le_antisymm h₁ h₂]

/-! ### Lemmas about `dedupKeys` -/

theorem mem_of_mem_dedupKeysAux {α β : Type} [DecidableEq α] {p : α × β} :
    ∀ (seen : List α) (l : List (α × β)), p ∈ dedupKeysAux seen l → p ∈ l := by
  intro seen l
  induction l generalizing seen with
  | nil => intro h; cases h
  | cons q t ih =>
    intro h
    match q with
    | (k, v) =>
      unfold dedupKeysAux at h
      by_cases hk : k ∈ seen
      · rw [if_pos hk] at h
        exact List.mem_cons.mpr (Or.inr (ih seen h))
      · rw [if_neg hk] at h
        rcases List.mem_cons.mp h with h | h
        · exact List.mem_cons.mpr (Or.inl h)
        · exact List.mem_cons.mpr (Or.inr (ih (k :: seen) h))

theorem exists_mem_dedupKeysAux {α β : Type} [DecidableEq α] {k : α} {v : β} :
    ∀ (seen : List α) (l : List (α × β)), (k, v) ∈ l → k ∉ seen →
      ∃ w, (k, w) ∈ dedupKeysAux seen l := by
  intro seen l
  induction l generalizing seen with
  | nil => intro h; cases h
  | cons q t ih =>
    intro h hseen
    match q with
    | (k0, v0) =>
      unfold dedupKeysAux
      by_cases hk : k0 ∈ seen
      · rw [if_pos hk]
        rcases List.mem_cons.mp h with h | h
        · cases h; exact absurd hk hseen
        · exact ih seen h hseen
      · rw [if_neg hk]
        by_cases hkk : k = k0
        · subst hkk
          exact ⟨v0, List.mem_cons_self _ _⟩
        · rcases List.mem_cons.mp h with h | h
          · cases h; exact absurd rfl hkk
          · have hnot : k ∉ k0 :: seen := by
              intro hc
              rcases List.mem_cons.mp hc with hc | hc
              · exact hkk hc
              · exact hseen hc
            rcases ih (k0 :: seen) h hnot with ⟨w, hw⟩
            exact ⟨w, List.mem_cons.mpr (Or.inr hw)⟩

theorem mem_dedupKeys_sub {α β : Type} [DecidableEq α] {p : α × β}
    {l : List (α × β)} (h : p ∈ dedupKeys l) : p ∈ l :=
  mem_of_mem_dedupKeysAux [] l h

theorem exists_mem_dedupKeys {α β : Type} [DecidableEq α] {k : α} {v : β}
    {l : List (α × β)} (h : (k, v) ∈ l) : ∃ w, (k, w) ∈ dedupKeys l :=
  exists_mem_dedupKeysAux [] l h (by intro hc; cases hc)

theorem filter_dedupKeysAux {α β : Type} [DecidableEq α] (q : α × β → Bool) :
    ∀ (l : List (α × β)) (seen₁ seen₂ : List α),
      (∀ k v v', (k, v) ∈ l → (k, v') ∈ l → q (k, v) = q (k, v')) →
      (∀ k v, (k, v) ∈ l → q (k, v) = true → (k ∈ seen₁ ↔ k ∈ seen₂)) →
      (dedupKeysAux seen₁ l).filter q = dedupKeysAux seen₂ (l.filter q) := by
  intro l
  induction l with
  | nil => intro seen₁ seen₂ _ _; rfl
  | cons p t ih =>
    intro seen₁ seen₂ hq hseen
    match p with
    | (k, v) =>
      have hqt : ∀ k' v v', (k', v) ∈ t → (k', v') ∈ t → q (k', v) = q (k', v') :=
        fun k' v1 v2 h1 h2 =>
          hq k' v1 v2 (List.mem_cons.mpr (Or.inr h1)) (List.mem_cons.mpr (Or.inr h2))
      have hstep : ∀ (seen : List α) (tl : List (α × β)),
          dedupKeysAux seen ((k, v) :: tl) =
            if k ∈ seen then dedupKeysAux seen tl
            else (k, v) :: dedupKeysAux (k :: seen) tl :=
        fun _ _ => rfl
      rw [hstep seen₁ t]
      by_cases hk₁ : k ∈ seen₁
      · rw [if_pos hk₁]
        cases hqv : q (k, v) with
        | false =>
          rw [List.filter_cons_of_neg (by rw [hqv]; exact Bool.false_ne_true)]
          exact ih seen₁ seen₂ hqt
            (fun k' v' h' hq' =>
              hseen k' v' (List.mem_cons.mpr (Or.inr h')) hq')
        | true =>
          have hk₂ : k ∈ seen₂ :=
            (hseen k v (List.mem_cons.mpr (Or.inl rfl)) hqv).mp hk₁
          rw [List.filter_cons_of_pos hqv, hstep seen₂ (t.filter q), if_pos hk₂]
          exact ih seen₁ seen₂ hqt
            (fun k' v' h' hq' =>
              hseen k' v' (List.mem_cons.mpr (Or.inr h')) hq')
      · rw [if_neg hk₁]
        cases hqv : q (k, v) with
        | false =>
          rw [List.filter_cons_of_neg (by rw [hqv]; exact Bool.false_ne_true),
            List.filter_cons_of_neg (by rw [hqv]; exact Bool.false_ne_true)]
          refine ih (k :: seen₁) seen₂ hqt ?_
          intro k' v' h' hq'
          by_cases hkk : k' = k
          · subst hkk
            have : q (k', v') = q (k', v) :=
              hq k' v' v (List.mem_cons.mpr (Or.inr h')) (List.mem_cons.mpr (Or.inl rfl))
            rw [hq'] at this
            rw [hqv] at this
            cases this
          · constructor
            · intro hc
              rcases List.mem_cons.mp hc with hc | hc
              · exact absurd hc hkk
              · exact (hseen k' v' (List.mem_cons.mpr (Or.inr h')) hq').mp hc
            · intro hc
              exact List.mem_cons.mpr
                (Or.inr ((hseen k' v' (List.mem_cons.mpr (Or.inr h')) hq').mpr hc))
        | true =>
          have hk₂ : k ∉ seen₂ := by
            intro hc
            exact hk₁ ((hseen k v (List.mem_cons.mpr (Or.inl rfl)) hqv).mpr hc)
          rw [List.filter_cons_of_pos hqv, List.filter_cons_of_pos hqv,
            hstep seen₂ (t.filter q), if_neg hk₂]
          congr 1
          refine ih (k :: seen₁) (k :: seen₂) hqt ?_
          intro k' v' h' hq'
          by_cases hkk : k' = k
          · subst hkk
            exact ⟨(fun _ => List.mem_cons.mpr (Or.inl rfl)),
              (fun _ => List.mem_cons.mpr (Or.inl rfl))⟩
          · constructor
            · intro hc
              rcases List.mem_cons.mp hc with hc | hc
              · exact absurd hc hkk
              · exact List.mem_cons.mpr (Or.inr
                  ((hseen k' v' (List.mem_cons.mpr (Or.inr h')) hq').mp hc))
            · intro hc
              rcases List.mem_cons.mp hc with hc | hc
              · exact absurd hc hkk
              · exact List.mem_cons.mpr (Or.inr
                  ((hseen k' v' (List.mem_cons.mpr (Or.inr h')) hq').mpr hc))

theorem filter_dedupKeys {α β : Type} [DecidableEq α] (q : α × β → Bool)
    (l : List (α × β))
    (hq : ∀ k v v', (k, v) ∈ l → (k, v') ∈ l → q (k, v) = q (k, v')) :
    (dedupKeys l).filter q = dedupKeys (l.filter q) :=
  filter_dedupKeysAux q l [] [] hq (fun _ _ _ _ => Iff.rfl)

theorem mem_map_dedupKeys_iff {α β γ : Type} [DecidableEq α] (g : α × β → γ)
    (l : List (α × β))
    (hkf : ∀ k v v', (k, v) ∈ l → (k, v') ∈ l → v = v') :
    ∀ x, x ∈ (dedupKeys l).map g ↔ x ∈ l.map g := by
  intro x
  constructor
  · intro hx
    rcases List.mem_map.mp hx with ⟨p, hp, hgx⟩
    exact List.mem_map.mpr ⟨p, mem_dedupKeys_sub hp, hgx⟩
  · intro hx
    rcases List.mem_map.mp hx with ⟨⟨k, v⟩, hp, hgx⟩
    rcases exists_mem_dedupKeys hp with ⟨w, hw⟩
    have hwv : w = v := hkf k w v (mem_dedupKeys_sub hw) hp
    refine List.mem_map.mpr ⟨(k, w), hw, ?_⟩
    rw [hwv]
    exact hgx

/-- The dict deduplication of `best_hand` commutes past the category-maximum
and category-filter steps whenever the candidate values are determined by
their keys (as they are for `hand_rank`-built dictionaries): deduplicating
the 21·N-entry dictionary first is the same as deduplicating only the
max-category candidates. -/
theorem bestFromCandidates_dedup_eq (cands : List (List Card × RankKey))
    (hkf : ∀ k v v', (k, v) ∈ cands → (k, v') ∈ cands → v = v') :
    bestFromCandidates (dedupKeys cands) = bestFromCandidatesFast cands := by
  unfold bestFromCandidates bestFromCandidatesFast
  rw [maxList_congr (mem_map_dedupKeys_iff (fun p => p.2.1) cands hkf)]
  cases hm : maxList (cands.map (fun p => p.2.1)) with
  | none => rfl
  | some m =>
    show selectStage (((dedupKeys cands).filter (fun p => p.2.1 = m)).map
        (fun p => (p.1, flattenRest p.2.2))) =
      selectStage ((dedupKeys (cands.filter (fun p => p.2.1 = m))).map
        (fun p => (p.1, flattenRest p.2.2)))
    rw [filter_dedupKeys (fun p => decide (p.2.1 = m)) cands
      (fun k v v' h1 h2 => by rw [hkf k v v' h1 h2])]

/-! ### Lemmas about `rankAll` -/

theorem exceptMap_map {ε α β γ : Type} (f : α → β) (g : β → γ) (e : Except ε α) :
    (e.map f).map g = e.map (fun x => g (f x)) := by
  cases e <;> rfl

theorem rankAllAux_eq (hs : List (List Card)) : ∀ acc,
    rankAllAux acc hs = (rankAll hs).map (fun P => acc.reverse ++ P) := by
  induction hs with
  | nil =>
    intro acc
    show Except.ok acc.reverse = Except.ok (acc.reverse ++ [])
    rw [List.append_nil]
  | cons h5 t ih =>
    intro acc
    show (match hand_rank h5 with
      | Except.error e => Except.error e
      | Except.ok k => rankAllAux ((h5, k) :: acc) t) =
      ((match hand_rank h5 with
        | Except.error e => Except.error e
        | Except.ok k => rankAllAux [(h5, k)] t).map fun P => acc.reverse ++ P)
    cases hr : hand_rank h5 with
    | error e => rfl
    | ok k =>
      show rankAllAux ((h5, k) :: acc) t =
        (rankAllAux [(h5, k)] t).map fun P => acc.reverse ++ P
      rw [ih ((h5, k) :: acc), ih [(h5, k)], exceptMap_map]
      cases rankAll t with
      | error e => rfl
      | ok P =>
        show Except.ok (((h5, k) :: acc).reverse ++ P) =
          Except.ok (acc.reverse ++ ([(h5, k)].reverse ++ P))
        rw [List.reverse_cons, List.append_assoc]
        rfl

theorem rankAll_cons (h5 : List Card) (t : List (List Card)) :
    rankAll (h5 :: t) =
      match hand_rank h5 with
      | .error e => .error e
      | .ok k => (rankAll t).map (fun P => (h5, k) :: P) := by
  show (match hand_rank h5 with
    | Except.error e => Except.error e
    | Except.ok k => rankAllAux [(h5, k)] t) =
    (match hand_rank h5 with
    | Except.error e => Except.error e
    | Except.ok k => (rankAll t).map (fun P => (h5, k) :: P))
  cases hr : hand_rank h5 with
  | error e => rfl
  | ok k =>
    show rankAllAux [(h5, k)] t = (rankAll t).map (fun P => (h5, k) :: P)
    rw [rankAllAux_eq t [(h5, k)]]
    rfl

theorem rankAll_mem {hs : List (List Card)} {P : List (List Card × RankKey)}
    (h : rankAll hs = .ok P) : ∀ p ∈ P, hand_rank p.1 = .ok p.2 := by
  induction hs generalizing P with
  | nil =>
    cases h
    intro p hp
    cases hp
  | cons h5 t ih =>
    rw [rankAll_cons] at h
    cases hr : hand_rank h5 with
    | error e => rw [hr] at h; cases h
    | ok k =>
      rw [hr] at h
      cases hrt : rankAll t with
      | error e => rw [hrt] at h; cases h
      | ok Pt =>
        rw [hrt] at h
        cases h
        intro p hp
        rcases List.mem_cons.mp hp with hp | hp
        · subst hp; exact hr
        · exact ih hrt p hp

theorem rankAll_keyFun {hs : List (List Card)} {P : List (List Card × RankKey)}
    (h : rankAll hs = .ok P) :
    ∀ k v v', (k, v) ∈ P → (k, v') ∈ P → v = v' := by
  intro k v v' h1 h2
  have e1 := rankAll_mem h (k, v) h1
  have e2 := rankAll_mem h (k, v') h2
  rw [e1] at e2
  cases e2
  rfl

/-! ### The single-pass summary computes the category maximum and filter -/

theorem maxList_cons_omax (x : Nat) (l : List Nat) :
    maxList (x :: l) = omax (some x) (maxList l) := by
  cases l with
  | nil => rfl
  | cons y t =>
    show some (t.foldl Nat.max (Nat.max x y)) = some (Nat.max x (t.foldl Nat.max y))
    rw [foldl_max_shift]

theorem mergeSumm_some (m1 m2 : Nat) (c1 c2 : List (List Card × RankKey)) :
    mergeSumm (some m1, c1) (some m2, c2) =
      if m1 = m2 then (some m1, c1 ++ c2)
      else if m2 < m1 then (some m1, c1) else (some m2, c2) := rfl

theorem mergeSumm_single (x : List Card × RankKey) (P : List (List Card × RankKey)) :
    mergeSumm (some x.2.1, [x]) (summOf P) = summOf (x :: P) := by
  unfold summOf
  rw [show ((x :: P).map (fun p => p.2.1)) = x.2.1 :: P.map (fun p => p.2.1) from rfl,
    maxList_cons_omax]
  cases hm : maxList (P.map (fun p => p.2.1)) with
  | none =>
    have hP : P = [] := List.map_eq_nil_iff.mp (maxList_eq_none_iff.mp hm)
    subst hP
    show (some x.2.1, [x]) = (some x.2.1, [x].filter (fun p => p.2.1 = x.2.1))
    rw [List.filter_cons_of_pos (by simp)]
    rfl
  | some m =>
    show mergeSumm (some x.2.1, [x]) (some m, P.filter (fun p => p.2.1 = m)) =
      (some (Nat.max x.2.1 m), (x :: P).filter (fun p => p.2.1 = Nat.max x.2.1 m))
    rw [mergeSumm_some]
    by_cases h1 : x.2.1 = m
    · rw [if_pos h1]
      have hmax : Nat.max x.2.1 m = m := Nat.max_eq_right (Nat.le_of_eq h1)
      rw [hmax, ← h1]
      rw [List.filter_cons_of_pos (by simp [h1]), h1]
      rfl
    · rw [if_neg h1]
      by_cases h2 : m < x.2.1
      · rw [if_pos h2]
        have hmax : Nat.max x.2.1 m = x.2.1 := Nat.max_eq_left (Nat.le_of_lt h2)
        rw [hmax]
        rw [List.filter_cons_of_pos (by simp)]
        have : P.filter (fun p => p.2.1 = x.2.1) = [] := by
          refine List.filter_eq_nil_iff.mpr ?_
          intro p hp
          have := maxList_le hm (List.mem_map.mpr ⟨p, hp, rfl⟩)
          simp only [decide_eq_true_eq]
          omega
        rw [this]
      · rw [if_neg h2]
        have hmax : Nat.max x.2.1 m = m := Nat.max_eq_right (Nat.le_of_not_lt h2)
        rw [hmax]
        rw [List.filter_cons_of_neg (by simp [h1])]

theorem summList_spec (hs : List (List Card)) :
    summList hs = (rankAll hs).map summOf := by
  induction hs with
  | nil => rfl
  | cons h5 t ih =>
    rw [rankAll_cons]
    show (match hand_rank h5 with
      | Except.error e => Except.error e
      | Except.ok k =>
        match summList t with
        | Except.error e => Except.error e
        | Except.ok s => Except.ok (mergeSumm (some k.1, [(h5, k)]) s)) = _
    cases hr : hand_rank h5 with
    | error e => rfl
    | ok k =>
      rw [ih]
      cases hrt : rankAll t with
      | error e => rfl
      | ok Pt =>
        show Except.ok (mergeSumm (some k.1, [(h5, k)]) (summOf Pt)) =
          Except.ok (summOf ((h5, k) :: Pt))
        rw [mergeSumm_single (h5, k) Pt]

/-! ### `mergeSumm` is associative, so summaries distribute over `++` -/

theorem mergeSumm_assoc (s1 s2 s3 : Summ) :
    mergeSumm (mergeSumm s1 s2) s3 = mergeSumm s1 (mergeSumm s2 s3) := by
  obtain ⟨o1, c1⟩ := s1
  obtain ⟨o2, c2⟩ := s2
  obtain ⟨o3, c3⟩ := s3
  cases o1 with
  | none => rfl
  | some m1 =>
    cases o2 with
    | none => rfl
    | some m2 =>
      cases o3 with
      | none =>
        show mergeSumm (mergeSumm (some m1, c1) (some m2, c2)) (none, c3) =
          mergeSumm (some m1, c1) (some m2, c2)
        rw [mergeSumm_some]
        by_cases h12 : m1 = m2
        · rw [if_pos h12]
          rfl
        · rw [if_neg h12]
          by_cases h21 : m2 < m1
          · rw [if_pos h21]
            rfl
          · rw [if_neg h21]
            rfl
      | some m3 =>
        show mergeSumm (mergeSumm (some m1, c1) (some m2, c2)) (some m3, c3) =
          mergeSumm (some m1, c1) (mergeSumm (some m2, c2) (some m3, c3))
        rcases Nat.lt_trichotomy m1 m2 with h12 | h12 | h12
        · have e12 : mergeSumm (some m1, c1) (some m2, c2) = (some m2, c2) := by
            rw [mergeSumm_some, if_neg (by omega), if_neg (by omega)]
          rcases Nat.lt_trichotomy m2 m3 with h23 | h23 | h23
          · have e23 : mergeSumm (some m2, c2) (some m3, c3) = (some m3, c3) := by
              rw [mergeSumm_some, if_neg (by omega), if_neg (by omega)]
            have e13 : mergeSumm (some m1, c1) (some m3, c3) = (some m3, c3) := by
              rw [mergeSumm_some, if_neg (by omega), if_neg (by omega)]
            rw [e12, e23, e13]
          · subst h23
            have e23 : mergeSumm (some m2, c2) (some m2, c3) = (some m2, c2 ++ c3) := by
              rw [mergeSumm_some, if_pos rfl]
            have eR : mergeSumm (some m1, c1) (some m2, c2 ++ c3) = (some m2, c2 ++ c3) := by
              rw [mergeSumm_some, if_neg (by omega), if_neg (by omega)]
            rw [e12, e23, eR]
          · have e23 : mergeSumm (some m2, c2) (some m3, c3) = (some m2, c2) := by
              rw [mergeSumm_some, if_neg (by omega), if_pos (by omega)]
            rw [e12, e23, e12]
        · subst h12
          have e12 : mergeSumm (some m1, c1) (some m1, c2) = (some m1, c1 ++ c2) := by
            rw [mergeSumm_some, if_pos rfl]
          rcases Nat.lt_trichotomy m1 m3 with h13 | h13 | h13
          · have eL : mergeSumm (some m1, c1 ++ c2) (some m3, c3) = (some m3, c3) := by
              rw [mergeSumm_some, if_neg (by omega), if_neg (by omega)]
            have e23 : mergeSumm (some m1, c2) (some m3, c3) = (some m3, c3) := by
              rw [mergeSumm_some, if_neg (by omega), if_neg (by omega)]
            have e13 : mergeSumm (some m1, c1) (some m3, c3) = (some m3, c3) := by
              rw [mergeSumm_some, if_neg (by omega), if_neg (by omega)]
            rw [e12, eL, e23, e13]
          · subst h13
            have eL : mergeSumm (some m1, c1 ++ c2) (some m1, c3) =
                (some m1, (c1 ++ c2) ++ c3) := by
              rw [mergeSumm_some, if_pos rfl]
            have e23 : mergeSumm (some m1, c2) (some m1, c3) = (some m1, c2 ++ c3) := by
              rw [mergeSumm_some, if_pos rfl]
            have eR : mergeSumm (some m1, c1) (some m1, c2 ++ c3) =
                (some m1, c1 ++ (c2 ++ c3)) := by
              rw [mergeSumm_some, if_pos rfl]
            rw [e12, eL, e23, eR, List.append_assoc]
          · have eL : mergeSumm (some m1, c1 ++ c2) (some m3, c3) =
                (some m1, c1 ++ c2) := by
              rw [mergeSumm_some, if_neg (by omega), if_pos (by omega)]
            have e23 : mergeSumm (some m1, c2) (some m3, c3) = (some m1, c2) := by
              rw [mergeSumm_some, if_neg (by omega), if_pos (by omega)]
            rw [e12, eL, e23, e12]
        · have e12 : mergeSumm (some m1, c1) (some m2, c2) = (some m1, c1) := by
            rw [mergeSumm_some, if_neg (by omega), if_pos (by omega)]
          rcases Nat.lt_trichotomy m2 m3 with h23 | h23 | h23
          · have e23 : mergeSumm (some m2, c2) (some m3, c3) = (some m3, c3) := by
              rw [mergeSumm_some, if_neg (by omega), if_neg (by omega)]
            rw [e12, e23]
          · subst h23
            have e23 : mergeSumm (some m2, c2) (some m2, c3) = (some m2, c2 ++ c3) := by
              rw [mergeSumm_some, if_pos rfl]
            have eL : mergeSumm (some m1, c1) (some m2, c3) = (some m1, c1) := by
              rw [mergeSumm_some, if_neg (by omega), if_pos (by omega)]
            have eR : mergeSumm (some m1, c1) (some m2, c2 ++ c3) = (some m1, c1) := by
              rw [mergeSumm_some, if_neg (by omega), if_pos (by omega)]
            rw [e12, eL, e23, eR]
          · have e23 : mergeSumm (some m2, c2) (some m3, c3) = (some m2, c2) := by
              rw [mergeSumm_some, if_neg (by omega), if_pos (by omega)]
            have eL : mergeSumm (some m1, c1) (some m3, c3) = (some m1, c1) := by
              rw [mergeSumm_some, if_neg (by omega), if_pos (by omega)]
            rw [e12, e23, e12, eL]

theorem summList_append (a b : List (List Card)) :
    summList (a ++ b) =
      match summList a with
      | .error e => .error e
      | .ok s1 =>
        match summList b with
        | .error e => .error e
        | .ok s2 => .ok (mergeSumm s1 s2) := by
  induction a with
  | nil =>
    show summList b =
      match summList b with
      | Except.error e => Except.error e
      | Except.ok s2 => Except.ok (mergeSumm ((none : Option Nat), ([] : List (List Card × RankKey))) s2)
    cases hb : summList b with
    | error e => rfl
    | ok s2 =>
      obtain ⟨o2, c2⟩ := s2
      cases o2 <;> rfl
  | cons h5 t ih =>
    show (match hand_rank h5 with
      | Except.error e => Except.error e
      | Except.ok k =>
        match summList (t ++ b) with
        | Except.error e => Except.error e
        | Except.ok s => Except.ok (mergeSumm (some k.1, [(h5, k)]) s)) =
      (match (match hand_rank h5 with
        | Except.error e => Except.error e
        | Except.ok k =>
          match summList t with
          | Except.error e => Except.error e
          | Except.ok s => Except.ok (mergeSumm (some k.1, [(h5, k)]) s)) with
      | Except.error e => Except.error e
      | Except.ok s1 =>
        match summList b with
        | Except.error e => Except.error e
        | Except.ok s2 => Except.ok (mergeSumm s1 s2))
    cases hr : hand_rank h5 with
    | error e => rfl
    | ok k =>
      rw [ih]
      cases ht : summList t with
      | error e => rfl
      | ok st =>
        cases hb : summList b with
        | error e => rfl
        | ok sb =>
          show Except.ok (mergeSumm (some k.1, [(h5, k)]) (mergeSumm st sb)) =
            Except.ok (mergeSumm (mergeSumm (some k.1, [(h5, k)]) st) sb)
          rw [mergeSumm_assoc]

theorem summOpts_eq (opts : List (List Card)) :
    summOpts opts = summList (optionCombos opts) := by
  induction opts with
  | nil => rfl
  | cons o os ih =>
    show (match summList (combos 5 o) with
      | Except.error e => Except.error e
      | Except.ok s1 =>
        match summOpts os with
        | Except.error e => Except.error e
        | Except.ok s2 => Except.ok (mergeSumm s1 s2)) =
      summList (combos 5 o ++ optionCombos os)
    rw [summList_append, ih]

theorem summOpts_append (a b : List (List Card)) :
    summOpts (a ++ b) =
      match summOpts a with
      | .error e => .error e
      | .ok s1 =>
        match summOpts b with
        | .error e => .error e
        | .ok s2 => .ok (mergeSumm s1 s2) := by
  induction a with
  | nil =>
    show summOpts b =
      match summOpts b with
      | Except.error e => Except.error e
      | Except.ok s2 => Except.ok (mergeSumm ((none : Option Nat), ([] : List (List Card × RankKey))) s2)
    cases hb : summOpts b with
    | error e => rfl
    | ok s2 =>
      obtain ⟨o2, c2⟩ := s2
      cases o2 <;> rfl
  | cons o t ih =>
    show (match summList (combos 5 o) with
      | Except.error e => Except.error e
      | Except.ok s1 =>
        match summOpts (t ++ b) with
        | Except.error e => Except.error e
        | Except.ok s2 => Except.ok (mergeSumm s1 s2)) =
      (match (match summList (combos 5 o) with
        | Except.error e => Except.error e
        | Except.ok s1 =>
          match summOpts t with
          | Except.error e => Except.error e
          | Except.ok s2 => Except.ok (mergeSumm s1 s2)) with
      | Except.error e => Except.error e
      | Except.ok s1 =>
        match summOpts b with
        | Except.error e => Except.error e
        | Except.ok s2 => Except.ok (mergeSumm s1 s2))
    cases ho : summList (combos 5 o) with
    | error e => rfl
    | ok so =>
      rw [ih]
      cases ht : summOpts t with
      | error e => rfl
      | ok st =>
        cases hb : summOpts b with
        | error e => rfl
        | ok sb =>
          show Except.ok (mergeSumm so (mergeSumm st sb)) =
            Except.ok (mergeSumm (mergeSumm so st) sb)
          rw [mergeSumm_assoc]

theorem summGroups_eq (gs : List (List (List Card))) :
    summGroups gs = summOpts (concatAll gs) := by
  induction gs with
  | nil => rfl
  | cons g t ih =>
    show (match summOpts g with
      | Except.error e => Except.error e
      | Except.ok s1 =>
        match summGroups t with
        | Except.error e => Except.error e
        | Except.ok s2 => Except.ok (mergeSumm s1 s2)) =
      summOpts (g ++ concatAll t)
    rw [summOpts_append, ih]

/-! ### Evaluating the wildcard test hand `w10` -/

set_option maxRecDepth 100000

set_option maxHeartbeats 12000000

theorem w10_options_eq :
    wildOptionsWith (canonStem w10) w10 = concatAll w10groups := by
  rfl

/-- `summGroups` on a cons evaluates the head group's summary and merges it
with the summary of the remaining groups. -/
theorem summGroups_cons_ok {g : List (List Card)} {gs : List (List (List Card))}
    {s1 s2 : Summ} (h1 : summOpts g = Except.ok s1)
    (h2 : summGroups gs = Except.ok s2) :
    summGroups (g :: gs) = Except.ok (mergeSumm s1 s2) := by
  show (match summOpts g with
    | Except.error e => Except.error e
    | Except.ok s1 =>
      match summGroups gs with
      | Except.error e => Except.error e
      | Except.ok s2 => Except.ok (mergeSumm s1 s2)) = Except.ok (mergeSumm s1 s2)
  rw [h1, h2]

/-- The 23 groups of the `w10` joker expansion, one per black-joker
replacement card, in deck enumeration order. -/
theorem w10groups_split :
    w10groups =
      [w10group ⟨'A', 'C'⟩, w10group ⟨'A', 'S'⟩, w10group ⟨'2', 'C'⟩, w10group ⟨'2', 'S'⟩, w10group ⟨'3', 'C'⟩, w10group ⟨'3', 'S'⟩, w10group ⟨'4', 'C'⟩, w10group ⟨'4', 'S'⟩, w10group ⟨'5', 'S'⟩, w10group ⟨'6', 'C'⟩, w10group ⟨'6', 'S'⟩, w10group ⟨'7', 'S'⟩, w10group ⟨'8', 'C'⟩, w10group ⟨'8', 'S'⟩, w10group ⟨'9', 'C'⟩, w10group ⟨'9', 'S'⟩, w10group ⟨'T', 'S'⟩, w10group ⟨'J', 'C'⟩, w10group ⟨'J', 'S'⟩, w10group ⟨'Q', 'C'⟩, w10group ⟨'Q', 'S'⟩, w10group ⟨'K', 'C'⟩, w10group ⟨'K', 'S'⟩] := by
  rfl

/-- Summary of the `w10` expansion group with black-joker replacement `AC`:
the maximal category among its 5-card candidates with the candidates
attaining it, in enumeration order. -/
theorem w10sAC :
    summOpts (w10group ⟨'A', 'C'⟩) =
      Except.ok ((some 6,
    [([⟨'T', 'D'⟩, ⟨'T', 'C'⟩, ⟨'5', 'H'⟩, ⟨'5', 'C'⟩, ⟨'5', 'D'⟩],
      ((6 : Nat), [Rest.scalar (some 5), Rest.scalar (some 10)])),
     ([⟨'T', 'D'⟩, ⟨'T', 'C'⟩, ⟨'5', 'H'⟩, ⟨'5', 'C'⟩, ⟨'T', 'H'⟩],
      ((6 : Nat), [Rest.scalar (some 10), Rest.scalar (some 5)]))])) := by
  rfl

/-- Summary of the `w10` expansion group with black-joker replacement `AS`:
the maximal category among its 5-card candidates with the candidates
attaining it, in enumeration order. -/
theorem w10sAS :
    summOpts (w10group ⟨'A', 'S'⟩) =
      Except.ok ((some 6,
    [([⟨'T', 'D'⟩, ⟨'T', 'C'⟩, ⟨'5', 'H'⟩, ⟨'5', 'C'⟩, ⟨'5', 'D'⟩],
      ((6 : Nat), [Rest.scalar (some 5), Rest.scalar (some 10)])),
     ([⟨'T', 'D'⟩, ⟨'T', 'C'⟩, ⟨'5', 'H'⟩, ⟨'5', 'C'⟩, ⟨'T', 'H'⟩],
      ((6 : Nat), [Rest.scalar (some 10), Rest.scalar (some 5)]))])) := by
  rfl

/-- Summary of the `w10` expansion group with black-joker replacement `2C`:
the maximal category among its 5-card candidates with the candidates
attaining it, in enumeration order. -/
theorem w10s2C :
    summOpts (w10group ⟨'2', 'C'⟩) =
      Except.ok ((some 6,
    [([⟨'T', 'D'⟩, ⟨'T', 'C'⟩, ⟨'5', 'H'⟩, ⟨'5', 'C'⟩, ⟨'5', 'D'⟩],
      ((6 : Nat), [Rest.scalar (some 5), Rest.scalar (some 10)])),
     ([⟨'T', 'D'⟩, ⟨'T', 'C'⟩, ⟨'5', 'H'⟩, ⟨'5', 'C'⟩, ⟨'T', 'H'⟩],
      ((6 : Nat), [Rest.scalar (some 10), Rest.scalar (some 5)]))])) := by
  rfl

/-- Summary of the `w10` expansion group with black-joker replacement `2S`:
the maximal category among its 5-card candidates with the candidates
attaining it, in enumeration order. -/
theorem w10s2S :
    summOpts (w10group ⟨'2', 'S'⟩) =
      Except.ok ((some 6,
    [([⟨'T', 'D'⟩, ⟨'T', 'C'⟩, ⟨'5', 'H'⟩, ⟨'5', 'C'⟩, ⟨'5', 'D'⟩],
      ((6 : Nat), [Rest.scalar (some 5), Rest.scalar (some 10)])),
     ([⟨'T', 'D'⟩, ⟨'T', 'C'⟩, ⟨'5', 'H'⟩, ⟨'5', 'C'⟩, ⟨'T', 'H'⟩],
      ((6 : Nat), [Rest.scalar (some 10), Rest.scalar (some 5)]))])) := by
  rfl

/-- Summary of the `w10` expansion group with black-joker replacement `3C`:
the maximal category among its 5-card candidates with the candidates
attaining it, in enumeration order. -/
theorem w10s3C :
    summOpts (w10group ⟨'3', 'C'⟩) =
      Except.ok ((some 6,
    [([⟨'T', 'D'⟩, ⟨'T', 'C'⟩, ⟨'5', 'H'⟩, ⟨'5', 'C'⟩, ⟨'5', 'D'⟩],
      ((6 : Nat), [Rest.scalar (some 5), Rest.scalar (some 10)])),
     ([⟨'T', 'D'⟩, ⟨'T', 'C'⟩, ⟨'5', 'H'⟩, ⟨'5', 'C'⟩, ⟨'T', 'H'⟩],
      ((6 : Nat), [Rest.scalar (some 10), Rest.scalar (some 5)]))])) := by
  rfl

/-- Summary of the `w10` expansion group with black-joker replacement `3S`:
the maximal category among its 5-card candidates with the candidates
attaining it, in enumeration order. -/
theorem w10s3S :
    summOpts (w10group ⟨'3', 'S'⟩) =
      Except.ok ((some 6,
    [([⟨'T', 'D'⟩, ⟨'T', 'C'⟩, ⟨'5', 'H'⟩, ⟨'5', 'C'⟩, ⟨'5', 'D'⟩],
      ((6 : Nat), [Rest.scalar (some 5), Rest.scalar (some 10)])),
     ([⟨'T', 'D'⟩, ⟨'T', 'C'⟩, ⟨'5', 'H'⟩, ⟨'5', 'C'⟩, ⟨'T', 'H'⟩],
      ((6 : Nat), [Rest.scalar (some 10), Rest.scalar (some 5)]))])) := by
  rfl

/-- Summary of the `w10` expansion group with black-joker replacement `4C`:
the maximal category among its 5-card candidates with the candidates
attaining it, in enumeration order. -/
theorem w10s4C :
    summOpts (w10group ⟨'4', 'C'⟩) =
      Except.ok ((some 6,
    [([⟨'T', 'D'⟩, ⟨'T', 'C'⟩, ⟨'5', 'H'⟩, ⟨'5', 'C'⟩, ⟨'5', 'D'⟩],
      ((6 : Nat), [Rest.scalar (some 5), Rest.scalar (some 10)])),
     ([⟨'T', 'D'⟩, ⟨'T', 'C'⟩, ⟨'5', 'H'⟩, ⟨'5', 'C'⟩, ⟨'T', 'H'⟩],
      ((6 : Nat), [Rest.scalar (some 10), Rest.scalar (some 5)]))])) := by
  rfl

/-- Summary of the `w10` expansion group with black-joker replacement `4S`:
the maximal category among its 5-card candidates with the candidates
attaining it, in enumeration order. -/
theorem w10s4S :
    summOpts (w10group ⟨'4', 'S'⟩) =
      Except.ok ((some 6,
    [([⟨'T', 'D'⟩, ⟨'T', 'C'⟩, ⟨'5', 'H'⟩, ⟨'5', 'C'⟩, ⟨'5', 'D'⟩],
      ((6 : Nat), [Rest.scalar (some 5), Rest.scalar (some 10)])),
     ([⟨'T', 'D'⟩, ⟨'T', 'C'⟩, ⟨'5', 'H'⟩, ⟨'5', 'C'⟩, ⟨'T', 'H'⟩],
      ((6 : Nat), [Rest.scalar (some 10), Rest.scalar (some 5)]))])) := by
  rfl

/-- Summary of the `w10` expansion group with black-joker replacement `5S`:
the maximal category among its 5-card candidates with the candidates
attaining it, in enumeration order. -/
theorem w10s5S :
    summOpts (w10group ⟨'5', 'S'⟩) =
      Except.ok ((some 7,
    [([⟨'T', 'D'⟩, ⟨'5', 'H'⟩, ⟨'5', 'C'⟩, ⟨'5', 'S'⟩, ⟨'5', 'D'⟩],
      ((7 : Nat), [Rest.scalar (some 5), Rest.scalar (some 10)])),
     ([⟨'T', 'C'⟩, ⟨'5', 'H'⟩, ⟨'5', 'C'⟩, ⟨'5', 'S'⟩, ⟨'5', 'D'⟩],
      ((7 : Nat), [Rest.scalar (some 5), Rest.scalar (some 10)])),
     ([⟨'5', 'H'⟩, ⟨'5', 'C'⟩, ⟨'7', 'C'⟩, ⟨'5', 'S'⟩, ⟨'5', 'D'⟩],
      ((7 : Nat), [Rest.scalar (some 5), Rest.scalar (some 7)]))])) := by
  rfl

/-- Summary of the `w10` expansion group with black-joker replacement `6C`:
the maximal category among its 5-card candidates with the candidates
attaining it, in enumeration order. -/
theorem w10s6C :
    summOpts (w10group ⟨'6', 'C'⟩) =
      Except.ok ((some 6,
    [([⟨'T', 'D'⟩, ⟨'T', 'C'⟩, ⟨'5', 'H'⟩, ⟨'5', 'C'⟩, ⟨'5', 'D'⟩],
      ((6 : Nat), [Rest.scalar (some 5), Rest.scalar (some 10)])),
     ([⟨'T', 'D'⟩, ⟨'T', 'C'⟩, ⟨'5', 'H'⟩, ⟨'5', 'C'⟩, ⟨'T', 'H'⟩],
      ((6 : Nat), [Rest.scalar (some 10), Rest.scalar (some 5)]))])) := by
  rfl

/-- Summary of the `w10` expansion group with black-joker replacement `6S`:
the maximal category among its 5-card candidates with the candidates
attaining it, in enumeration order. -/
theorem w10s6S :
    summOpts (w10group ⟨'6', 'S'⟩) =
      Except.ok ((some 6,
    [([⟨'T', 'D'⟩, ⟨'T', 'C'⟩, ⟨'5', 'H'⟩, ⟨'5', 'C'⟩, ⟨'5', 'D'⟩],
      ((6 : Nat), [Rest.scalar (some 5), Rest.scalar (some 10)])),
     ([⟨'T', 'D'⟩, ⟨'T', 'C'⟩, ⟨'5', 'H'⟩, ⟨'5', 'C'⟩, ⟨'T', 'H'⟩],
      ((6 : Nat), [Rest.scalar (some 10), Rest.scalar (some 5)]))])) := by
  rfl

/-- Summary of the `w10` expansion group with black-joker replacement `7S`:
the maximal category among its 5-card candidates with the candidates
attaining it, in enumeration order. -/
theorem w10s7S :
    summOpts (w10group ⟨'7', 'S'⟩) =
      Except.ok ((some 6,
    [([⟨'T', 'D'⟩, ⟨'T', 'C'⟩, ⟨'5', 'H'⟩, ⟨'5', 'C'⟩, ⟨'5', 'D'⟩],
      ((6 : Nat), [Rest.scalar (some 5), Rest.scalar (some 10)])),
     ([⟨'5', 'H'⟩, ⟨'5', 'C'⟩, ⟨'7', 'C'⟩, ⟨'7', 'S'⟩, ⟨'5', 'D'⟩],
      ((6 : Nat), [Rest.scalar (some 5), Rest.scalar (some 7)])),
     ([⟨'T', 'D'⟩, ⟨'T', 'C'⟩, ⟨'7', 'C'⟩, ⟨'7', 'S'⟩, ⟨'7', 'H'⟩],
      ((6 : Nat), [Rest.scalar (some 7), Rest.scalar (some 10)])),
     ([⟨'5', 'H'⟩, ⟨'5', 'C'⟩, ⟨'7', 'C'⟩, ⟨'7', 'S'⟩, ⟨'7', 'H'⟩],
      ((6 : Nat), [Rest.scalar (some 7), Rest.scalar (some 5)])),
     ([⟨'T', 'D'⟩, ⟨'T', 'C'⟩, ⟨'7', 'C'⟩, ⟨'7', 'S'⟩, ⟨'7', 'D'⟩],
      ((6 : Nat), [Rest.scalar (some 7), Rest.scalar (some 10)])),
     ([⟨'5', 'H'⟩, ⟨'5', 'C'⟩, ⟨'7', 'C'⟩, ⟨'7', 'S'⟩, ⟨'7', 'D'⟩],
      ((6 : Nat), [Rest.scalar (some 7), Rest.scalar (some 5)])),
     ([⟨'T', 'D'⟩, ⟨'T', 'C'⟩, ⟨'5', 'H'⟩, ⟨'5', 'C'⟩, ⟨'T', 'H'⟩],
      ((6 : Nat), [Rest.scalar (some 10), Rest.scalar (some 5)])),
     ([⟨'T', 'D'⟩, ⟨'T', 'C'⟩, ⟨'7', 'C'⟩, ⟨'7', 'S'⟩, ⟨'T', 'H'⟩],
      ((6 : Nat), [Rest.scalar (some 10), Rest.scalar (some 7)]))])) := by
  rfl

/-- Summary of the `w10` expansion group with black-joker replacement `8C`:
the maximal category among its 5-card candidates with the candidates
attaining it, in enumeration order. -/
theorem w10s8C :
    summOpts (w10group ⟨'8', 'C'⟩) =
      Except.ok ((some 6,
    [([⟨'T', 'D'⟩, ⟨'T', 'C'⟩, ⟨'5', 'H'⟩, ⟨'5', 'C'⟩, ⟨'5', 'D'⟩],
      ((6 : Nat), [Rest.scalar (some 5), Rest.scalar (some 10)])),
     ([⟨'T', 'D'⟩, ⟨'T', 'C'⟩, ⟨'5', 'H'⟩, ⟨'5', 'C'⟩, ⟨'T', 'H'⟩],
      ((6 : Nat), [Rest.scalar (some 10), Rest.scalar (some 5)]))])) := by
  rfl

/-- Summary of the `w10` expansion group with black-joker replacement `8S`:
the maximal category among its 5-card candidates with the candidates
attaining it, in enumeration order. -/
theorem w10s8S :
    summOpts (w10group ⟨'8', 'S'⟩) =
      Except.ok ((some 6,
    [([⟨'T', 'D'⟩, ⟨'T', 'C'⟩, ⟨'5', 'H'⟩, ⟨'5', 'C'⟩, ⟨'5', 'D'⟩],
      ((6 : Nat), [Rest.scalar (some 5), Rest.scalar (some 10)])),
     ([⟨'T', 'D'⟩, ⟨'T', 'C'⟩, ⟨'5', 'H'⟩, ⟨'5', 'C'⟩, ⟨'T', 'H'⟩],
      ((6 : Nat), [Rest.scalar (some 10), Rest.scalar (some 5)]))])) := by
  rfl

/-- Summary of the `w10` expansion group with black-joker replacement `9C`:
the maximal category among its 5-card candidates with the candidates
attaining it, in enumeration order. -/
theorem w10s9C :
    summOpts (w10group ⟨'9', 'C'⟩) =
      Except.ok ((some 6,
    [([⟨'T', 'D'⟩, ⟨'T', 'C'⟩, ⟨'5', 'H'⟩, ⟨'5', 'C'⟩, ⟨'5', 'D'⟩],
      ((6 : Nat), [Rest.scalar (some 5), Rest.scalar (some 10)])),
     ([⟨'T', 'D'⟩, ⟨'T', 'C'⟩, ⟨'5', 'H'⟩, ⟨'5', 'C'⟩, ⟨'T', 'H'⟩],
      ((6 : Nat), [Rest.scalar (some 10), Rest.scalar (some 5)]))])) := by
  rfl

/-- Summary of the `w10` expansion group with black-joker replacement `9S`:
the maximal category among its 5-card candidates with the candidates
attaining it, in enumeration order. -/
theorem w10s9S :
    summOpts (w10group ⟨'9', 'S'⟩) =
      Except.ok ((some 6,
    [([⟨'T', 'D'⟩, ⟨'T', 'C'⟩, ⟨'5', 'H'⟩, ⟨'5', 'C'⟩, ⟨'5', 'D'⟩],
      ((6 : Nat), [Rest.scalar (some 5), Rest.scalar (some 10)])),
     ([⟨'T', 'D'⟩, ⟨'T', 'C'⟩, ⟨'5', 'H'⟩, ⟨'5', 'C'⟩, ⟨'T', 'H'⟩],
      ((6 : Nat), [Rest.scalar (some 10), Rest.scalar (some 5)]))])) := by
  rfl

/-- Summary of the `w10` expansion group with black-joker replacement `TS`:
the maximal category among its 5-card candidates with the candidates
attaining it, in enumeration order. -/
theorem w10sTS :
    summOpts (w10group ⟨'T', 'S'⟩) =
      Except.ok ((some 7,
    [([⟨'T', 'D'⟩, ⟨'T', 'C'⟩, ⟨'5', 'H'⟩, ⟨'T', 'S'⟩, ⟨'T', 'H'⟩],
      ((7 : Nat), [Rest.scalar (some 10), Rest.scalar (some 5)])),
     ([⟨'T', 'D'⟩, ⟨'T', 'C'⟩, ⟨'5', 'C'⟩, ⟨'T', 'S'⟩, ⟨'T', 'H'⟩],
      ((7 : Nat), [Rest.scalar (some 10), Rest.scalar (some 5)])),
     ([⟨'T', 'D'⟩, ⟨'T', 'C'⟩, ⟨'7', 'C'⟩, ⟨'T', 'S'⟩, ⟨'T', 'H'⟩],
      ((7 : Nat), [Rest.scalar (some 10), Rest.scalar (some 7)]))])) := by
  rfl

/-- Summary of the `w10` expansion group with black-joker replacement `JC`:
the maximal category among its 5-card candidates with the candidates
attaining it, in enumeration order. -/
theorem w10sJC :
    summOpts (w10group ⟨'J', 'C'⟩) =
      Except.ok ((some 6,
    [([⟨'T', 'D'⟩, ⟨'T', 'C'⟩, ⟨'5', 'H'⟩, ⟨'5', 'C'⟩, ⟨'5', 'D'⟩],
      ((6 : Nat), [Rest.scalar (some 5), Rest.scalar (some 10)])),
     ([⟨'T', 'D'⟩, ⟨'T', 'C'⟩, ⟨'5', 'H'⟩, ⟨'5', 'C'⟩, ⟨'T', 'H'⟩],
      ((6 : Nat), [Rest.scalar (some 10), Rest.scalar (some 5)]))])) := by
  rfl

/-- Summary of the `w10` expansion group with black-joker replacement `JS`:
the maximal category among its 5-card candidates with the candidates
attaining it, in enumeration order. -/
theorem w10sJS :
    summOpts (w10group ⟨'J', 'S'⟩) =
      Except.ok ((some 6,
    [([⟨'T', 'D'⟩, ⟨'T', 'C'⟩, ⟨'5', 'H'⟩, ⟨'5', 'C'⟩, ⟨'5', 'D'⟩],
      ((6 : Nat), [Rest.scalar (some 5), Rest.scalar (some 10)])),
     ([⟨'T', 'D'⟩, ⟨'T', 'C'⟩, ⟨'5', 'H'⟩, ⟨'5', 'C'⟩, ⟨'T', 'H'⟩],
      ((6 : Nat), [Rest.scalar (some 10), Rest.scalar (some 5)]))])) := by
  rfl

/-- Summary of the `w10` expansion group with black-joker replacement `QC`:
the maximal category among its 5-card candidates with the candidates
attaining it, in enumeration order. -/
theorem w10sQC :
    summOpts (w10group ⟨'Q', 'C'⟩) =
      Except.ok ((some 6,
    [([⟨'T', 'D'⟩, ⟨'T', 'C'⟩, ⟨'5', 'H'⟩, ⟨'5', 'C'⟩, ⟨'5', 'D'⟩],
      ((6 : Nat), [Rest.scalar (some 5), Rest.scalar (some 10)])),
     ([⟨'T', 'D'⟩, ⟨'T', 'C'⟩, ⟨'5', 'H'⟩, ⟨'5', 'C'⟩, ⟨'T', 'H'⟩],
      ((6 : Nat), [Rest.scalar (some 10), Rest.scalar (some 5)]))])) := by
  rfl

/-- Summary of the `w10` expansion group with black-joker replacement `QS`:
the maximal category among its 5-card candidates with the candidates
attaining it, in enumeration order. -/
theorem w10sQS :
    summOpts (w10group ⟨'Q', 'S'⟩) =
      Except.ok ((some 6,
    [([⟨'T', 'D'⟩, ⟨'T', 'C'⟩, ⟨'5', 'H'⟩, ⟨'5', 'C'⟩, ⟨'5', 'D'⟩],
      ((6 : Nat), [Rest.scalar (some 5), Rest.scalar (some 10)])),
     ([⟨'T', 'D'⟩, ⟨'T', 'C'⟩, ⟨'5', 'H'⟩, ⟨'5', 'C'⟩, ⟨'T', 'H'⟩],
      ((6 : Nat), [Rest.scalar (some 10), Rest.scalar (some 5)]))])) := by
  rfl

/-- Summary of the `w10` expansion group with black-joker replacement `KC`:
the maximal category among its 5-card candidates with the candidates
attaining it, in enumeration order. -/
theorem w10sKC :
    summOpts (w10group ⟨'K', 'C'⟩) =
      Except.ok ((some 6,
    [([⟨'T', 'D'⟩, ⟨'T', 'C'⟩, ⟨'5', 'H'⟩, ⟨'5', 'C'⟩, ⟨'5', 'D'⟩],
      ((6 : Nat), [Rest.scalar (some 5), Rest.scalar (some 10)])),
     ([⟨'T', 'D'⟩, ⟨'T', 'C'⟩, ⟨'5', 'H'⟩, ⟨'5', 'C'⟩, ⟨'T', 'H'⟩],
      ((6 : Nat), [Rest.scalar (some 10), Rest.scalar (some 5)]))])) := by
  rfl

/-- Summary of the `w10` expansion group with black-joker replacement `KS`:
the maximal category among its 5-card candidates with the candidates
attaining it, in enumeration order. -/
theorem w10sKS :
    summOpts (w10group ⟨'K', 'S'⟩) =
      Except.ok ((some 6,
    [([⟨'T', 'D'⟩, ⟨'T', 'C'⟩, ⟨'5', 'H'⟩, ⟨'5', 'C'⟩, ⟨'5', 'D'⟩],
      ((6 : Nat), [Rest.scalar (some 5), Rest.scalar (some 10)])),
     ([⟨'T', 'D'⟩, ⟨'T', 'C'⟩, ⟨'5', 'H'⟩, ⟨'5', 'C'⟩, ⟨'T', 'H'⟩],
      ((6 : Nat), [Rest.scalar (some 10), Rest.scalar (some 5)]))])) := by
  rfl

theorem w10_summGroups : summGroups w10groups = .ok (some 7, w10cands) := by
  have t0 : summGroups ([] : List (List (List Card))) =
      Except.ok ((none : Option Nat), ([] : List (List Card × RankKey))) := rfl
  have t1 := summGroups_cons_ok w10sKS t0
  have t2 := summGroups_cons_ok w10sKC t1
  have t3 := summGroups_cons_ok w10sQS t2
  have t4 := summGroups_cons_ok w10sQC t3
  have t5 := summGroups_cons_ok w10sJS t4
  have t6 := summGroups_cons_ok w10sJC t5
  have t7 := summGroups_cons_ok w10sTS t6
  have t8 := summGroups_cons_ok w10s9S t7
  have t9 := summGroups_cons_ok w10s9C t8
  have t10 := summGroups_cons_ok w10s8S t9
  have t11 := summGroups_cons_ok w10s8C t10
  have t12 := summGroups_cons_ok w10s7S t11
  have t13 := summGroups_cons_ok w10s6S t12
  have t14 := summGroups_cons_ok w10s6C t13
  have t15 := summGroups_cons_ok w10s5S t14
  have t16 := summGroups_cons_ok w10s4S t15
  have t17 := summGroups_cons_ok w10s4C t16
  have t18 := summGroups_cons_ok w10s3S t17
  have t19 := summGroups_cons_ok w10s3C t18
  have t20 := summGroups_cons_ok w10s2S t19
  have t21 := summGroups_cons_ok w10s2C t20
  have t22 := summGroups_cons_ok w10sAS t21
  have t23 := summGroups_cons_ok w10sAC t22
  rw [w10groups_split]
  exact t23.trans (by rfl)

theorem w10_rankAll_spec :
    (rankAll (optionCombos (wildOptionsWith (canonStem w10) w10))).map summOf =
      .ok (some 7, w10cands) := by
  rw [← summList_spec, ← summOpts_eq, w10_options_eq, ← summGroups_eq]
  exact w10_summGroups

/-- C10: `best_wild_hand` applied to the 7-card input
`["TD","TC","5H","5C","7C","?R","?B"]` returns exactly the 5-card hand
`{7C, TC, TD, TH, TS}`: both jokers resolve to the two missing tens,
completing four-of-a-kind on tens. -/
theorem c10_best_wild_hand_test :
    best_wild_hand w10 =
      .ok [⟨'T', 'D'⟩, ⟨'T', 'C'⟩, ⟨'7', 'C'⟩, ⟨'T', 'S'⟩, ⟨'T', 'H'⟩] ∧
    List.Perm
      [(⟨'T', 'D'⟩ : Card), ⟨'T', 'C'⟩, ⟨'7', 'C'⟩, ⟨'T', 'S'⟩, ⟨'T', 'H'⟩]
      [⟨'7', 'C'⟩, ⟨'T', 'C'⟩, ⟨'T', 'D'⟩, ⟨'T', 'H'⟩, ⟨'T', 'S'⟩] := by
  constructor
  · cases hr : rankAll (optionCombos (wildOptionsWith (canonStem w10) w10)) with
    | error e =>
      have h := w10_rankAll_spec
      rw [hr] at h
      cases h
    | ok P =>
      have h : (Except.ok (summOf P) : Except PyErr Summ) =
          Except.ok ((some 7 : Option Nat), w10cands) := by
        have h0 := w10_rankAll_spec
        rw [hr] at h0
        exact h0
      have h2 : summOf P = ((some 7 : Option Nat), w10cands) := Except.ok.inj h
      cases hm : maxList (P.map (fun p => p.2.1)) with
      | none =>
        have h3 : summOf P = ((none : Option Nat), ([] : List (List Card × RankKey))) := by
          unfold summOf
          rw [hm]
        rw [h3] at h2
        have h4 : (none : Option Nat) = some 7 := congrArg Prod.fst h2
        cases h4
      | some m =>
        have h3 : summOf P = (some m, P.filter (fun p => p.2.1 = m)) := by
          unfold summOf
          rw [hm]
        rw [h3] at h2
        have ha : m = 7 := Option.some.inj (congrArg Prod.fst h2)
        have hb : P.filter (fun p => p.2.1 = m) = w10cands := congrArg Prod.snd h2
        subst ha
        have hb1 : best_wild_hand w10 = bestFromCandidates (dedupKeys P) := by
          unfold best_wild_hand best_wild_hand_with
          rw [hr]
          rfl
        rw [hb1, bestFromCandidates_dedup_eq P (rankAll_keyFun hr)]
        unfold bestFromCandidatesFast
        rw [hm]
        show selectStage ((dedupKeys (P.filter (fun p => p.2.1 = 7))).map
          (fun p => (p.1, flattenRest p.2.2))) = _
        rw [hb]
        rfl
  · decide

/-! ### Structure of the joker expansion -/

theorem mem_foldr_append {α β : Type} (f : α → List β) (l : List α) (x : β) :
    x ∈ l.foldr (fun a acc => f a ++ acc) [] ↔ ∃ a ∈ l, x ∈ f a := by
  induction l with
  | nil => simp
  | cons a t ih =>
    show x ∈ f a ++ t.foldr (fun a acc => f a ++ acc) [] ↔ _
    rw [List.mem_append, ih]
    simp

theorem foldr_append_length {α β : Type} (f : α → List β) (l : List α) :
    (l.foldr (fun a acc => f a ++ acc) []).length =
      (l.map (fun a => (f a).length)).sum := by
  induction l with
  | nil => rfl
  | cons a t ih =>
    show (f a ++ t.foldr (fun a acc => f a ++ acc) []).length = _
    rw [List.length_append, ih]
    rfl

theorem sum_map_const_length {α : Type} (l : List α) (c : Nat) :
    (l.map (fun _ => c)).sum = l.length * c := by
  induction l with
  | nil => simp
  | cons a t ih =>
    show c + (t.map (fun _ => c)).sum = (t.length + 1) * c
    rw [ih]
    ring

theorem mem_complementDeck {deck stem : List Card} {b : Card} :
    b ∈ complementDeck deck stem ↔ b ∈ deck ∧ b ∉ stem := by
  unfold complementDeck
  rw [List.mem_filter]
  simp

theorem wildOptionsWith_mem (s h opt : List Card) :
    opt ∈ wildOptionsWith s h ↔
      ((jokerB ∈ h ∧ jokerR ∈ h ∧ ∃ b ∈ complementDeck blackDeck s,
          ∃ r ∈ complementDeck redDeck s, opt = (s ++ [b]) ++ [r]) ∨
       (jokerB ∈ h ∧ jokerR ∉ h ∧ ∃ b ∈ complementDeck blackDeck s, opt = s ++ [b]) ∨
       (jokerB ∉ h ∧ jokerR ∈ h ∧ ∃ r ∈ complementDeck redDeck s, opt = s ++ [r]) ∨
       (jokerB ∉ h ∧ jokerR ∉ h ∧ opt = s)) := by
  have hsplit : wildOptionsWith s h =
      (if jokerR ∈ h then
        (if jokerB ∈ h then
          (complementDeck blackDeck s).map (fun b => s ++ [b]) ++ [] else [s]).foldr
          (fun a acc => (complementDeck redDeck s).map (fun b => a ++ [b]) ++ acc) []
      else
        (if jokerB ∈ h then
          (complementDeck blackDeck s).map (fun b => s ++ [b]) ++ [] else [s])) := rfl
  rw [hsplit]
  by_cases hB : jokerB ∈ h
  · by_cases hR : jokerR ∈ h
    · rw [if_pos hR, if_pos hB]
      rw [mem_foldr_append]
      constructor
      · rintro ⟨a, ha, hopt⟩
        rw [List.append_nil] at ha
        rcases List.mem_map.mp ha with ⟨b, hb, hab⟩
        rcases List.mem_map.mp hopt with ⟨r, hr2, hor⟩
        subst hab
        exact Or.inl ⟨hB, hR, b, hb, r, hr2, hor.symm⟩
      · rintro (⟨_, _, b, hb, r, hr2, hor⟩ | ⟨_, hR2, _⟩ | ⟨hB2, _, _⟩ | ⟨hB2, _, _⟩)
        · refine ⟨s ++ [b], ?_, ?_⟩
          · rw [List.append_nil]
            exact List.mem_map.mpr ⟨b, hb, rfl⟩
          · exact List.mem_map.mpr ⟨r, hr2, hor.symm⟩
        · exact absurd hR hR2
        · exact absurd hB hB2
        · exact absurd hB hB2
    · rw [if_neg hR, if_pos hB]
      rw [List.append_nil, List.mem_map]
      constructor
      · rintro ⟨b, hb, hsb⟩
        exact Or.inr (Or.inl ⟨hB, hR, b, hb, hsb.symm⟩)
      · rintro (⟨_, hR2, _⟩ | ⟨_, _, b, hb, hsb⟩ | ⟨hB2, _, _⟩ | ⟨hB2, _, _⟩)
        · exact absurd hR2 hR
        · exact ⟨b, hb, hsb.symm⟩
        · exact absurd hB hB2
        · exact absurd hB hB2
  · by_cases hR : jokerR ∈ h
    · rw [if_pos hR, if_neg hB]
      rw [mem_foldr_append]
      constructor
      · rintro ⟨a, ha, hopt⟩
        rcases List.mem_cons.mp ha with ha | ha
        · subst ha
          rcases List.mem_map.mp hopt with ⟨r, hr2, hor⟩
          exact Or.inr (Or.inr (Or.inl ⟨hB, hR, r, hr2, hor.symm⟩))
        · cases ha
      · rintro (⟨hB2, _, _⟩ | ⟨hB2, _, _⟩ | ⟨_, _, r, hr2, hor⟩ | ⟨_, hR2, _⟩)
        · exact absurd hB2 hB
        · exact absurd hB2 hB
        · exact ⟨s, List.mem_cons.mpr (Or.inl rfl), List.mem_map.mpr ⟨r, hr2, hor.symm⟩⟩
        · exact absurd hR hR2
    · rw [if_neg hR, if_neg hB]
      constructor
      · intro hm
        rcases List.mem_cons.mp hm with hm | hm
        · exact Or.inr (Or.inr (Or.inr ⟨hB, hR, hm⟩))
        · cases hm
      · rintro (⟨hB2, _, _⟩ | ⟨hB2, _, _⟩ | ⟨_, hR2, _⟩ | ⟨_, _, hopt⟩)
        · exact absurd hB2 hB
        · exact absurd hB2 hB
        · exact absurd hR2 hR
        · exact List.mem_cons.mpr (Or.inl hopt)

theorem wildOptionsWith_length (s h opt : List Card)
    (hm : opt ∈ wildOptionsWith s h) : opt.length = s.length + jokerCount h := by
  rcases (wildOptionsWith_mem s h opt).mp hm with h4 | h4 | h4 | h4
  · obtain ⟨hB, hR, b, _, r, _, heq⟩ := h4
    subst heq
    unfold jokerCount
    rw [if_pos hB, if_pos hR]
    simp only [List.length_append, List.length_cons, List.length_nil]
  · obtain ⟨hB, hR, b, _, heq⟩ := h4
    subst heq
    unfold jokerCount
    rw [if_pos hB, if_neg hR]
    simp only [List.length_append, List.length_cons, List.length_nil]
  · obtain ⟨hB, hR, r, _, heq⟩ := h4
    subst heq
    unfold jokerCount
    rw [if_neg hB, if_pos hR]
    simp only [List.length_append, List.length_cons, List.length_nil]
  · obtain ⟨hB, hR, heq⟩ := h4
    subst heq
    unfold jokerCount
    rw [if_neg hB, if_neg hR]
    omega

theorem combos_eq_nil {α : Type} : ∀ (n : Nat) (l : List α),
    l.length < n → combos n l = [] := by
  intro n l
  induction l generalizing n with
  | nil =>
    intro hl
    cases n with
    | zero => cases hl
    | succ m => rfl
  | cons x xs ih =>
    intro hl
    cases n with
    | zero => cases hl
    | succ m =>
      show (combos m xs).map (fun c => x :: c) ++ combos (m + 1) xs = []
      rw [ih m (by simpa using hl), ih (m + 1) (by simp at hl; omega)]
      rfl

theorem optionCombos_eq_nil (options : List (List Card))
    (h : ∀ opt ∈ options, combos 5 opt = []) : optionCombos options = [] := by
  induction options with
  | nil => rfl
  | cons o os ih =>
    show combos 5 o ++ optionCombos os = []
    rw [h o (List.mem_cons.mpr (Or.inl rfl)), ih (fun opt ho => h opt (List.mem_cons.mpr (Or.inr ho)))]
    rfl

/-! ### `dedupFirst` facts -/

theorem dedupFirstAux_nodup {α : Type} [DecidableEq α] :
    ∀ (l : List α) (seen : List α),
      (dedupFirstAux seen l).Nodup ∧ ∀ a ∈ dedupFirstAux seen l, a ∉ seen := by
  intro l
  induction l with
  | nil => intro seen; exact ⟨List.nodup_nil, fun a ha => absurd ha (List.not_mem_nil a)⟩
  | cons x xs ih =>
    intro seen
    show ((if x ∈ seen then dedupFirstAux seen xs
        else x :: dedupFirstAux (x :: seen) xs).Nodup ∧
      ∀ a ∈ (if x ∈ seen then dedupFirstAux seen xs
        else x :: dedupFirstAux (x :: seen) xs), a ∉ seen)
    by_cases hx : x ∈ seen
    · rw [if_pos hx]
      exact ih seen
    · rw [if_neg hx]
      rcases ih (x :: seen) with ⟨hnd, hmem⟩
      constructor
      · refine List.nodup_cons.mpr ⟨?_, hnd⟩
        intro hc
        exact hmem x hc (List.mem_cons.mpr (Or.inl rfl))
      · intro a ha
        rcases List.mem_cons.mp ha with ha | ha
        · subst ha; exact hx
        · intro hc
          exact hmem a ha (List.mem_cons.mpr (Or.inr hc))

theorem dedupFirst_nodup {α : Type} [DecidableEq α] (l : List α) :
    (dedupFirst l).Nodup :=
  (dedupFirstAux_nodup l []).1

theorem canonStem_nodup (hand : List Card) : (canonStem hand).Nodup :=
  dedupFirst_nodup _

theorem dedupFirstAux_eq_self {α : Type} [DecidableEq α] :
    ∀ (l : List α) (seen : List α), l.Nodup → (∀ a ∈ l, a ∉ seen) →
      dedupFirstAux seen l = l := by
  intro l
  induction l with
  | nil => intro seen _ _; rfl
  | cons x xs ih =>
    intro seen hnd hdis
    show (if x ∈ seen then dedupFirstAux seen xs
      else x :: dedupFirstAux (x :: seen) xs) = x :: xs
    rw [if_neg (hdis x (List.mem_cons.mpr (Or.inl rfl)))]
    congr 1
    refine ih (x :: seen) (List.nodup_cons.mp hnd).2 ?_
    intro a ha hc
    rcases List.mem_cons.mp hc with hc | hc
    · subst hc
      exact (List.nodup_cons.mp hnd).1 ha
    · exact hdis a (List.mem_cons.mpr (Or.inr ha)) hc

theorem canonStem_eq_self {hand : List Card} (hnd : hand.Nodup)
    (hB : jokerB ∉ hand) (hR : jokerR ∉ hand) : canonStem hand = hand := by
  unfold canonStem
  have hf : hand.filter (fun c => c ≠ jokerB ∧ c ≠ jokerR) = hand := by
    refine List.filter_eq_self.mpr ?_
    intro a ha
    simp only [decide_eq_true_eq]
    exact ⟨(fun hc => hB (hc ▸ ha)), (fun hc => hR (hc ▸ ha))⟩
  rw [hf]
  exact dedupFirstAux_eq_self hand [] hnd (fun a _ hc => absurd hc (List.not_mem_nil a))

/-! ### Unfolding lemmas -/

theorem wildOptionsWith_unfold (s h : List Card) :
    wildOptionsWith s h =
      (if jokerR ∈ h then
        (if jokerB ∈ h then
          (complementDeck blackDeck s).map (fun b => s ++ [b]) ++ [] else [s]).foldr
          (fun a acc => (complementDeck redDeck s).map (fun b => a ++ [b]) ++ acc) []
      else
        (if jokerB ∈ h then
          (complementDeck blackDeck s).map (fun b => s ++ [b]) ++ [] else [s])) := rfl

theorem hand_rank_eq_core (hand : List Card) :
    hand_rank hand =
      match card_ranks hand with
      | .error e => .error e
      | .ok ranks => handRankCore (flush hand) ranks := by
  unfold hand_rank handRankCore
  cases card_ranks hand with
  | error e => rfl
  | ok ranks => rfl

/-! ### Hands shorter than five cards -/

theorem best_hand_short (hand : List Card) (h : hand.length < 5) :
    best_hand hand = .error .valueError := by
  have hc : combos 5 hand = [] := combos_eq_nil 5 hand h
  unfold best_hand
  rw [hc]
  rfl

theorem best_wild_hand_short (hand : List Card)
    (h : (canonStem hand).length + jokerCount hand < 5) :
    best_wild_hand hand = .error .valueError := by
  have hoc : optionCombos (wildOptionsWith (canonStem hand) hand) = [] := by
    refine optionCombos_eq_nil _ ?_
    intro opt ho
    refine combos_eq_nil 5 opt ?_
    rw [wildOptionsWith_length (canonStem hand) hand opt ho]
    exact h
  unfold best_wild_hand best_wild_hand_with
  rw [hoc]
  rfl

/-! ### Claims C1-C6, C8 -/

/-- C1: on the well-formed 7-card hand `4C 5D 6H 7S 8C 9D 9H`, `best_hand`
returns the 8-high straight `[4C,5D,6H,7S,8C]` with rank key `(4, 8)`, even
though the 5-card subset `[5D,6H,7S,8C,9D]` of the same input has the
strictly greater rank key `(4, 9)`; so the returned hand's rank key is not
greater than or equal to that of every 5-card subset. -/
theorem c1_best_hand_not_maximal :
    c1hand.Nodup ∧ c1hand.length = 7 ∧
    best_hand c1hand = .ok [⟨'4', 'C'⟩, ⟨'5', 'D'⟩, ⟨'6', 'H'⟩, ⟨'7', 'S'⟩, ⟨'8', 'C'⟩] ∧
    [(⟨'5', 'D'⟩ : Card), ⟨'6', 'H'⟩, ⟨'7', 'S'⟩, ⟨'8', 'C'⟩, ⟨'9', 'D'⟩] ∈ combos 5 c1hand ∧
    hand_rank [(⟨'4', 'C'⟩ : Card), ⟨'5', 'D'⟩, ⟨'6', 'H'⟩, ⟨'7', 'S'⟩, ⟨'8', 'C'⟩] =
      .ok (4, [.scalar (some 8)]) ∧
    hand_rank [(⟨'5', 'D'⟩ : Card), ⟨'6', 'H'⟩, ⟨'7', 'S'⟩, ⟨'8', 'C'⟩, ⟨'9', 'D'⟩] =
      .ok (4, [.scalar (some 9)]) ∧
    specKeyLt (4, [8]) (4, [9]) = true := by
  exact ⟨by decide, rfl, rfl, by decide, rfl, rfl, rfl⟩

/-- C2: `straight` accepts any five ranks whose consecutive differences are
all equal, not only unit steps: on the sorted, distinct rank list
`[14,12,10,8,6]` (an arithmetic progression with step 2) it returns `True`,
and `hand_rank` classifies the corresponding hand `AC QD TH 8S 6C` as a
category-4 Straight, contradicting the specification predicate (5
consecutive integers). -/
theorem c2_straight_equal_step :
    straight [14, 12, 10, 8, 6] = .ok true ∧
    specStraight [14, 12, 10, 8, 6] = false ∧
    card_ranks [(⟨'A', 'C'⟩ : Card), ⟨'Q', 'D'⟩, ⟨'T', 'H'⟩, ⟨'8', 'S'⟩, ⟨'6', 'C'⟩] =
      .ok [14, 12, 10, 8, 6] ∧
    hand_rank [(⟨'A', 'C'⟩ : Card), ⟨'Q', 'D'⟩, ⟨'T', 'H'⟩, ⟨'8', 'S'⟩, ⟨'6', 'C'⟩] =
      .ok (4, [.scalar (some 14)]) := by
  exact ⟨rfl, rfl, rfl, rfl⟩

/-- C3: the cumulative-sum elimination of `best_hand` does not implement the
reference order: on `c1hand` the two 9-high straights tie on the single
top-rank criterion, the loop falls through, and the procedure returns the
first enumerated candidate — the 8-high straight — although under the
reference order (category first, then lexicographic tie-breaks) the key
`(4, [9])` of the subset `[5D,6H,7S,8C,9H]` strictly exceeds the returned
hand's key `(4, [8])`. -/
theorem c3_selection_vs_reference :
    best_hand c1hand = .ok [⟨'4', 'C'⟩, ⟨'5', 'D'⟩, ⟨'6', 'H'⟩, ⟨'7', 'S'⟩, ⟨'8', 'C'⟩] ∧
    [(⟨'5', 'D'⟩ : Card), ⟨'6', 'H'⟩, ⟨'7', 'S'⟩, ⟨'8', 'C'⟩, ⟨'9', 'H'⟩] ∈ combos 5 c1hand ∧
    hand_rank [(⟨'5', 'D'⟩ : Card), ⟨'6', 'H'⟩, ⟨'7', 'S'⟩, ⟨'8', 'C'⟩, ⟨'9', 'H'⟩] =
      .ok (4, [.scalar (some 9)]) ∧
    hand_rank [(⟨'4', 'C'⟩ : Card), ⟨'5', 'D'⟩, ⟨'6', 'H'⟩, ⟨'7', 'S'⟩, ⟨'8', 'C'⟩] =
      .ok (4, [.scalar (some 8)]) ∧
    specKeyLt (4, [8]) (4, [9]) = true ∧
    specKeyLt (4, [9]) (4, [8]) = false := by
  exact ⟨rfl, by decide, rfl, rfl, rfl, rfl⟩

/-- C4: `src/poker.py` contains the definition `kicker_ranks` with an empty
body, so the module is not syntactically valid Python; importing it raises
a syntax error before any evaluation, and no call to `best_hand` or
`best_wild_hand` through the module can produce a result. -/
theorem c4_kicker_ranks_empty_body :
    (⟨"kicker_ranks", 0⟩ : PyDef) ∈ pokerModuleDefs ∧
    pythonSyntaxValid pokerModuleDefs = false ∧
    (∀ hand : List Card,
      callThroughModule pokerModuleDefs best_hand hand = .syntaxErrorRaised) ∧
    (∀ hand : List Card,
      callThroughModule pokerModuleDefs best_wild_hand hand = .syntaxErrorRaised) := by
  refine ⟨by decide, rfl, fun hand => rfl, fun hand => rfl⟩

/-- C6 counterexample: the input `dup7` contains the concrete card `2C`
twice, yet `best_hand` raises nothing (there is no `DuplicateCardError`
anywhere in the module) and returns a 5-card result normally. -/
theorem c6_duplicate_returns_ok :
    dup7.count (⟨'2', 'C'⟩ : Card) = 2 ∧
    best_hand dup7 =
      .ok [⟨'3', 'D'⟩, ⟨'4', 'H'⟩, ⟨'5', 'S'⟩, ⟨'6', 'C'⟩, ⟨'7', 'D'⟩] := by
  exact ⟨rfl, rfl⟩

/-- C6 (amended): when fewer than 5 cards remain after joker resolution,
`best_hand` and `best_wild_hand` fail — but with Python's built-in
`ValueError` from `max()` on an empty sequence, there being no
`EmptyHandError` in the module — and return no partial result; duplicate
concrete cards are not detected at all (see the counterexample). -/
theorem c6_short_hand_value_error : ∀ hand : List Card,
    (hand.length < 5 → best_hand hand = .error .valueError) ∧
    ((canonStem hand).length + jokerCount hand < 5 →
      best_wild_hand hand = .error .valueError) :=
  fun hand => ⟨best_hand_short hand, best_wild_hand_short hand⟩

theorem c6_short_hand_value_error_witness :
    (([(⟨'2', 'C'⟩ : Card)] : List Card).length < 5 ∧
      best_hand [(⟨'2', 'C'⟩ : Card)] = .error .valueError) ∧
    ((canonStem [(⟨'2', 'C'⟩ : Card)]).length + jokerCount [(⟨'2', 'C'⟩ : Card)] < 5 ∧
      best_wild_hand [(⟨'2', 'C'⟩ : Card)] = .error .valueError) :=
  ⟨⟨by decide, (c6_short_hand_value_error [(⟨'2', 'C'⟩ : Card)]).1 (by decide)⟩,
   ⟨by decide, (c6_short_hand_value_error [(⟨'2', 'C'⟩ : Card)]).2 (by decide)⟩⟩

/-- C8: the wheel `A-2-3-4-5` is not a straight for this classifier: with
Ace always encoded as 14, `straight [14,5,4,3,2]` is `False`, and any
5-card hand whose ranks are `[14,5,4,3,2]` is classified neither as
Straight (4) nor as Straight Flush (8) — it lands on High Card or Flush. -/
theorem c8_wheel_not_straight :
    straight [14, 5, 4, 3, 2] = .ok false ∧
    (∀ (hand : List Card) (cat : Nat) (rest : List Rest),
      card_ranks hand = .ok [14, 5, 4, 3, 2] →
      hand_rank hand = .ok (cat, rest) → cat ≠ 4 ∧ cat ≠ 8) := by
  refine ⟨rfl, ?_⟩
  intro hand cat rest hcr hrk
  rw [hand_rank_eq_core, hcr] at hrk
  cases hf : flush hand with
  | true =>
    rw [hf] at hrk
    have hrk2 : handRankCore true [14, 5, 4, 3, 2] = Except.ok (cat, rest) := hrk
    have hv : handRankCore true [14, 5, 4, 3, 2] =
        .ok (5, [.seq [14, 5, 4, 3, 2]]) := rfl
    rw [hv] at hrk2
    have h5 : (5 : Nat) = cat :=
      congrArg Prod.fst (Except.ok.inj hrk2)
    omega
  | false =>
    rw [hf] at hrk
    have hrk2 : handRankCore false [14, 5, 4, 3, 2] = Except.ok (cat, rest) := hrk
    have hv : handRankCore false [14, 5, 4, 3, 2] =
        .ok (0, [.seq [14, 5, 4, 3, 2]]) := rfl
    rw [hv] at hrk2
    have h0 : (0 : Nat) = cat :=
      congrArg Prod.fst (Except.ok.inj hrk2)
    omega

theorem c8_wheel_not_straight_witness :
    card_ranks [(⟨'A', 'S'⟩ : Card), ⟨'2', 'C'⟩, ⟨'3', 'D'⟩, ⟨'4', 'H'⟩, ⟨'5', 'S'⟩] =
      .ok [14, 5, 4, 3, 2] ∧
    hand_rank [(⟨'A', 'S'⟩ : Card), ⟨'2', 'C'⟩, ⟨'3', 'D'⟩, ⟨'4', 'H'⟩, ⟨'5', 'S'⟩] =
      .ok (0, [.seq [14, 5, 4, 3, 2]]) ∧
    (0 ≠ 4 ∧ 0 ≠ 8) :=
  ⟨rfl, rfl,
    c8_wheel_not_straight.2
      [(⟨'A', 'S'⟩ : Card), ⟨'2', 'C'⟩, ⟨'3', 'D'⟩, ⟨'4', 'H'⟩, ⟨'5', 'S'⟩]
      0 [.seq [14, 5, 4, 3, 2]] rfl rfl⟩

/-- C5 counterexample: on the joker-free well-formed hand `c1hand`,
`best_wild_hand` run with the stem-set enumeration order `rotStem` (a
permutation of the stem, hence a legitimate Python set order) returns the
9-high straight `{5D,6H,7S,8C,9D}` while `best_hand` returns the 8-high
straight `{4C,5D,6H,7S,8C}` — different hands even as sets. -/
theorem c5_order_dependent :
    jokerB ∉ c1hand ∧ jokerR ∉ c1hand ∧
    rotStem.Perm (canonStem c1hand) ∧
    best_wild_hand_with rotStem c1hand =
      .ok [⟨'5', 'D'⟩, ⟨'6', 'H'⟩, ⟨'7', 'S'⟩, ⟨'8', 'C'⟩, ⟨'9', 'D'⟩] ∧
    best_hand c1hand =
      .ok [⟨'4', 'C'⟩, ⟨'5', 'D'⟩, ⟨'6', 'H'⟩, ⟨'7', 'S'⟩, ⟨'8', 'C'⟩] ∧
    ¬ List.Perm
        [(⟨'5', 'D'⟩ : Card), ⟨'6', 'H'⟩, ⟨'7', 'S'⟩, ⟨'8', 'C'⟩, ⟨'9', 'D'⟩]
        [⟨'4', 'C'⟩, ⟨'5', 'D'⟩, ⟨'6', 'H'⟩, ⟨'7', 'S'⟩, ⟨'8', 'C'⟩] := by
  exact ⟨by decide, by decide, by decide, rfl, rfl, by decide⟩

/-- C5 (amended): for well-formed (duplicate-free) joker-free hands,
`best_wild_hand` returns exactly the same result as `best_hand` whenever
the stem set enumerates in input order (the canonical order of this
embedding); for other set-iteration orders the two can differ, but only
through the order-dependent fall-through branch of the selection loop (see
the counterexample). -/
theorem c5_no_joker_agreement : ∀ hand : List Card,
    hand.Nodup → jokerB ∉ hand → jokerR ∉ hand →
    best_wild_hand hand = best_hand hand := by
  intro hand hnd hB hR
  show best_wild_hand_with (canonStem hand) hand = best_hand hand
  rw [canonStem_eq_self hnd hB hR]
  have hopts : wildOptionsWith hand hand = [hand] := by
    rw [wildOptionsWith_unfold, if_neg hR, if_neg hB]
  unfold best_wild_hand_with best_hand
  rw [hopts]
  have h2 : optionCombos [hand] = combos 5 hand := by
    show combos 5 hand ++ optionCombos [] = combos 5 hand
    rw [show optionCombos ([] : List (List Card)) = [] from rfl, List.append_nil]
  rw [h2]

theorem c5_no_joker_agreement_witness :
    (([(⟨'T', 'D'⟩ : Card), ⟨'T', 'C'⟩, ⟨'T', 'H'⟩, ⟨'7', 'C'⟩, ⟨'7', 'D'⟩,
        ⟨'8', 'C'⟩, ⟨'8', 'S'⟩] : List Card).Nodup ∧
      jokerB ∉ [(⟨'T', 'D'⟩ : Card), ⟨'T', 'C'⟩, ⟨'T', 'H'⟩, ⟨'7', 'C'⟩, ⟨'7', 'D'⟩,
        ⟨'8', 'C'⟩, ⟨'8', 'S'⟩] ∧
      jokerR ∉ [(⟨'T', 'D'⟩ : Card), ⟨'T', 'C'⟩, ⟨'T', 'H'⟩, ⟨'7', 'C'⟩, ⟨'7', 'D'⟩,
        ⟨'8', 'C'⟩, ⟨'8', 'S'⟩]) ∧
    best_wild_hand [(⟨'T', 'D'⟩ : Card), ⟨'T', 'C'⟩, ⟨'T', 'H'⟩, ⟨'7', 'C'⟩, ⟨'7', 'D'⟩,
        ⟨'8', 'C'⟩, ⟨'8', 'S'⟩] =
      best_hand [(⟨'T', 'D'⟩ : Card), ⟨'T', 'C'⟩, ⟨'T', 'H'⟩, ⟨'7', 'C'⟩, ⟨'7', 'D'⟩,
        ⟨'8', 'C'⟩, ⟨'8', 'S'⟩] :=
  ⟨⟨by decide, by decide, by decide⟩,
    c5_no_joker_agreement _ (by decide) (by decide) (by decide)⟩

/-! ### Claims C7 and C9 -/

theorem nodup_append_single {l : List Card} {x : Card}
    (hl : l.Nodup) (hx : x ∉ l) : (l ++ [x]).Nodup := by
  refine List.Nodup.append hl (List.nodup_singleton x) ?_
  intro a ha hax
  rw [List.mem_singleton.mp hax] at ha
  exact hx ha

theorem blackDeck_facts :
    ∀ b ∈ blackDeck, b.rank ∈ rankChars ∧ (b.suit = 'C' ∨ b.suit = 'S') := by
  decide

theorem redDeck_facts :
    ∀ r ∈ redDeck, r.rank ∈ rankChars ∧ (r.suit = 'H' ∨ r.suit = 'D') := by
  decide

/-- C7: every candidate hand enumerated by `best_wild_hand` for a hand with
one or two jokers extends the stem by one replacement card per joker: the
black joker only by a clubs/spades card of a 2..A rank not among the
non-joker cards, the red joker only by a hearts/diamonds card of a 2..A
rank not among the non-joker cards; consequently no candidate contains a
duplicate card. -/
theorem c7_joker_replacement_shape : ∀ hand opt : List Card,
    (jokerB ∈ hand ∨ jokerR ∈ hand) → opt ∈ wildOptions hand →
    opt.Nodup ∧
    ((jokerB ∈ hand ∧ jokerR ∈ hand ∧ ∃ b r : Card,
        b ∈ blackDeck ∧ b ∉ canonStem hand ∧ b.rank ∈ rankChars ∧
          (b.suit = 'C' ∨ b.suit = 'S') ∧
        r ∈ redDeck ∧ r ∉ canonStem hand ∧ r.rank ∈ rankChars ∧
          (r.suit = 'H' ∨ r.suit = 'D') ∧
        opt = (canonStem hand ++ [b]) ++ [r]) ∨
     (jokerB ∈ hand ∧ jokerR ∉ hand ∧ ∃ b : Card,
        b ∈ blackDeck ∧ b ∉ canonStem hand ∧ b.rank ∈ rankChars ∧
          (b.suit = 'C' ∨ b.suit = 'S') ∧ opt = canonStem hand ++ [b]) ∨
     (jokerB ∉ hand ∧ jokerR ∈ hand ∧ ∃ r : Card,
        r ∈ redDeck ∧ r ∉ canonStem hand ∧ r.rank ∈ rankChars ∧
          (r.suit = 'H' ∨ r.suit = 'D') ∧ opt = canonStem hand ++ [r])) := by
  intro hand opt hJ hopt
  have hmem := (wildOptionsWith_mem (canonStem hand) hand opt).mp hopt
  have hstem : (canonStem hand).Nodup := canonStem_nodup hand
  rcases hmem with h4 | h4 | h4 | h4
  · obtain ⟨hB, hR, b, hb, r, hr2, heq⟩ := h4
    rcases mem_complementDeck.mp hb with ⟨hbd, hbs⟩
    rcases mem_complementDeck.mp hr2 with ⟨hrd, hrs⟩
    rcases blackDeck_facts b hbd with ⟨hbr, hbsuit⟩
    rcases redDeck_facts r hrd with ⟨hrr, hrsuit⟩
    have hrb : r ∉ canonStem hand ++ [b] := by
      intro hc
      rcases List.mem_append.mp hc with hc | hc
      · exact hrs hc
      · have hrb2 : r = b := List.mem_singleton.mp hc
        have : b.suit = r.suit := by rw [hrb2]
        rcases hbsuit with h1 | h1 <;> rcases hrsuit with h2 | h2 <;>
          rw [h1, h2] at this <;> cases this
    constructor
    · rw [heq]
      exact nodup_append_single (nodup_append_single hstem hbs) hrb
    · exact Or.inl ⟨hB, hR, b, r, hbd, hbs, hbr, hbsuit, hrd, hrs, hrr, hrsuit, heq⟩
  · obtain ⟨hB, hR, b, hb, heq⟩ := h4
    rcases mem_complementDeck.mp hb with ⟨hbd, hbs⟩
    rcases blackDeck_facts b hbd with ⟨hbr, hbsuit⟩
    constructor
    · rw [heq]
      exact nodup_append_single hstem hbs
    · exact Or.inr (Or.inl ⟨hB, hR, b, hbd, hbs, hbr, hbsuit, heq⟩)
  · obtain ⟨hB, hR, r, hr2, heq⟩ := h4
    rcases mem_complementDeck.mp hr2 with ⟨hrd, hrs⟩
    rcases redDeck_facts r hrd with ⟨hrr, hrsuit⟩
    constructor
    · rw [heq]
      exact nodup_append_single hstem hrs
    · exact Or.inr (Or.inr ⟨hB, hR, r, hrd, hrs, hrr, hrsuit, heq⟩)
  · obtain ⟨hB, hR, _⟩ := h4
    rcases hJ with hJ | hJ
    · exact absurd hJ hB
    · exact absurd hJ hR

theorem c7_joker_replacement_shape_witness :
    (jokerB ∈ w10 ∨ jokerR ∈ w10) ∧
    ((canonStem w10 ++ [(⟨'A', 'C'⟩ : Card)]) ++ [(⟨'A', 'H'⟩ : Card)]) ∈ wildOptions w10 ∧
    ((canonStem w10 ++ [(⟨'A', 'C'⟩ : Card)]) ++ [(⟨'A', 'H'⟩ : Card)]).Nodup :=
  ⟨Or.inl (by decide), by decide,
    (c7_joker_replacement_shape w10
      ((canonStem w10 ++ [(⟨'A', 'C'⟩ : Card)]) ++ [(⟨'A', 'H'⟩ : Card)])
      (Or.inl (by decide)) (by decide)).1⟩

/-- C9 (amended): the expansion offers at most 26 replacement choices per
joker color (13 ranks × 2 suits minus the already-held cards of that
color), hence at most 26×26 candidate hands, each of 7 cards when the
input holds 5 distinct concrete cards and both jokers. -/
theorem c9_expansion_bounds : ∀ hand : List Card,
    (complementDeck blackDeck (canonStem hand)).length ≤ 26 ∧
    (complementDeck redDeck (canonStem hand)).length ≤ 26 ∧
    (wildOptions hand).length ≤ 26 * 26 ∧
    (jokerB ∈ hand → jokerR ∈ hand → (canonStem hand).length = 5 →
      ∀ opt, opt ∈ wildOptions hand → opt.length = 7) := by
  intro hand
  have hbc : (complementDeck blackDeck (canonStem hand)).length ≤ 26 := by
    have h1 : (complementDeck blackDeck (canonStem hand)).length ≤ blackDeck.length :=
      List.length_filter_le _ _
    have h2 : blackDeck.length = 26 := rfl
    omega
  have hrc : (complementDeck redDeck (canonStem hand)).length ≤ 26 := by
    have h1 : (complementDeck redDeck (canonStem hand)).length ≤ redDeck.length :=
      List.length_filter_le _ _
    have h2 : redDeck.length = 26 := rfl
    omega
  refine ⟨hbc, hrc, ?_, ?_⟩
  · show (wildOptionsWith (canonStem hand) hand).length ≤ 26 * 26
    rw [wildOptionsWith_unfold]
    by_cases hR : jokerR ∈ hand
    · rw [if_pos hR]
      by_cases hB : jokerB ∈ hand
      · rw [if_pos hB, foldr_append_length]
        have hmapeq :
            (((complementDeck blackDeck (canonStem hand)).map
                (fun b => canonStem hand ++ [b]) ++ []).map
              (fun a => ((complementDeck redDeck (canonStem hand)).map
                (fun b => a ++ [b])).length)) =
            (((complementDeck blackDeck (canonStem hand)).map
                (fun b => canonStem hand ++ [b]) ++ []).map
              (fun _ => (complementDeck redDeck (canonStem hand)).length)) := by
          simp [List.length_map]
        rw [hmapeq, sum_map_const_length]
        refine Nat.mul_le_mul ?_ hrc
        simpa using hbc
      · rw [if_neg hB, foldr_append_length]
        show ([canonStem hand].map (fun a =>
          ((complementDeck redDeck (canonStem hand)).map (fun b => a ++ [b])).length)).sum ≤ _
        simp only [List.map_cons, List.map_nil, List.length_map, List.sum_cons,
          List.sum_nil, Nat.add_zero]
        omega
    · rw [if_neg hR]
      by_cases hB : jokerB ∈ hand
      · rw [if_pos hB]
        simp only [List.length_append, List.length_map, List.length_nil, Nat.add_zero]
        omega
      · rw [if_neg hB]
        simp only [List.length_singleton]
        omega
  · intro hB hR hlen opt hopt
    have := wildOptionsWith_length (canonStem hand) hand opt hopt
    rw [this, hlen]
    unfold jokerCount
    rw [if_pos hB, if_pos hR]

theorem c9_expansion_bounds_witness :
    (jokerB ∈ w10) ∧ (jokerR ∈ w10) ∧ (canonStem w10).length = 5 ∧
    ((canonStem w10 ++ [(⟨'A', 'C'⟩ : Card)]) ++ [(⟨'A', 'D'⟩ : Card)]) ∈ wildOptions w10 ∧
    ((canonStem w10 ++ [(⟨'A', 'C'⟩ : Card)]) ++ [(⟨'A', 'D'⟩ : Card)]).length = 7 :=
  ⟨by decide, by decide, by decide, by decide,
    (c9_expansion_bounds w10).2.2.2 (by decide) (by decide) (by decide) _ (by decide)⟩

/-- C9 counterexample: on the hand `2H 3H 4H 5H 6H ?B ?R`, whose five
concrete cards are all red, the black joker has all 26 clubs/spades cards
available — more than the claimed 22 — and the expansion enumerates
26 × 21 = 546 candidate hands, more than the claimed 22 × 22 = 484. -/
theorem c9_more_than_22_choices :
    (complementDeck blackDeck (canonStem c9hand)).length = 26 ∧
    ¬ ((complementDeck blackDeck (canonStem c9hand)).length ≤ 22) ∧
    (wildOptions c9hand).length = 546 ∧
    ¬ ((wildOptions c9hand).length ≤ 22 * 22) := by
  refine ⟨rfl, ?_, rfl, ?_⟩ <;> decide
